import Mathlib

/-!
Verification of the `mule-lazy-migrate` tool (Rust sources under `src/`)
against its natural-language specification.

The development is a shallow embedding of the program:

* file contents and paths are `List Char` (`Str`);
* the filesystem is an association list from paths to file data, in
  directory-walk order; a file is either decodable text or `binary`
  (a file whose bytes fail to decode as UTF-8, so `read_to_string` fails);
* the regex `(<name>)([^<]*)(</name>)` used by `update_property_value`
  (src/xml.rs) is embedded for the fragment of regex syntax those
  patterns actually contain: literal characters plus the `.` metacharacter
  (which matches any character except a newline);
* `str::trim` is embedded for ASCII whitespace, the only whitespace the
  descriptors involved use;
* JSON values (serde_json) are embedded as `JValue`, with object maps in
  sorted key order (serde_json's default `BTreeMap` backing); the JSON
  grammar is embedded for the fragment the artifact descriptor uses
  (strings with the common escapes, integers, booleans, null, arrays,
  objects); inputs outside that fragment parse to `none`;
* `expect`/`unwrap` panics are `Except.error` values that abort the run
  as `RunResult.panic`; external `mvn` invocations are outside the model
  (their only modelled filesystem effect is the removal of
  `pom.xml.versionsBackup` performed by `update_maven_dependencies`).
-/

/-- File contents and paths, as character lists. -/
abbrev Str := List Char

/-- The single-quote character, used by the summary formats. -/
def sqc : Char := Char.ofNat 39

/-- Left brace. -/
def lbrace : Char := Char.ofNat 123

/-- Right brace. -/
def rbrace : Char := Char.ofNat 125

/-- ASCII whitespace recognised by the embedded `str::trim`. -/
def isWs (c : Char) : Bool :=
  decide (c = ' ' ∨ c = Char.ofNat 9 ∨ c = Char.ofNat 10 ∨ c = Char.ofNat 13)

/-- Drop leading whitespace. -/
def dropWs : Str → Str
  | [] => []
  | c :: cs => if isWs c then dropWs cs else c :: cs

/-- `str::trim`: strip whitespace from both ends. -/
def trimWs (s : Str) : Str :=
  ((dropWs ((dropWs s).reverse)).reverse)

/-- Substring test, embedding Rust `str::contains` for a literal pattern
(`contains ""` is `true`). -/
def occurs : Str → Str → Bool
  | n, [] => decide (n = [])
  | n, c :: cs => n.isPrefixOf (c :: cs) || occurs n cs

/-- One scan step of Rust `str::replace`: fuelled left-to-right replacement
of non-overlapping occurrences of `fr` by `t`. -/
def replaceGo (fr t : Str) : Nat → Str → Str
  | 0, s => s
  | _ + 1, [] => []
  | fuel + 1, c :: cs =>
    if fr.isPrefixOf (c :: cs) then t ++ replaceGo fr t fuel ((c :: cs).drop fr.length)
    else c :: replaceGo fr t fuel cs

/-- Rust `str::replace` for a literal pattern.  An empty pattern matches at
every character boundary, so every boundary receives a copy of `t`. -/
def replaceAll (fr t s : Str) : Str :=
  if fr = [] then t ++ (s.map (fun c => c :: t)).flatten
  else replaceGo fr t (s.length + 1) s

/-- Number of non-overlapping occurrences replaced by `replaceGo`
(same scan). -/
def occCount (fr : Str) : Nat → Str → Nat
  | 0, _ => 0
  | _ + 1, [] => 0
  | fuel + 1, c :: cs =>
    if fr.isPrefixOf (c :: cs) then occCount fr fuel ((c :: cs).drop fr.length) + 1
    else occCount fr fuel cs

/-- A file on disk: decodable text, or bytes that fail to decode. -/
inductive FileData where
  | text (content : Str)
  | binary
deriving DecidableEq

/-- The filesystem: paths to file data, in directory-walk order. -/
abbrev FS := List (Str × FileData)

/-- Look a path up (first entry wins). -/
def fsLookup : FS → Str → Option FileData
  | [], _ => none
  | (q, d) :: rest, p => if q = p then some d else fsLookup rest p

/-- `fs::write`: create or truncate the file at `p`. -/
def fsWrite : FS → Str → FileData → FS
  | [], p, d => [(p, d)]
  | (q, e) :: rest, p, d => if q = p then (p, d) :: rest else (q, e) :: fsWrite rest p d

/-- `fs::copy src dst` (no effect when the source is missing, matching the
call sites, which either just read `src` or discard the error). -/
def fsCopy (fs : FS) (src dst : Str) : FS :=
  match fsLookup fs src with
  | some d => fsWrite fs dst d
  | none => fs

/-- `fs::remove_file`. -/
def fsRemove : FS → Str → FS
  | [], _ => []
  | (q, e) :: rest, p => if q = p then rest else (q, e) :: fsRemove rest p

/-- `Path::exists`. -/
def fsExists (fs : FS) (p : Str) : Bool :=
  (fsLookup fs p).isSome

/-- Does a pattern character match a subject character?  `.` is the one
regex metacharacter the program's property names contain; it matches any
character except a newline.  Every other character matches literally. -/
def patCharMatches (p c : Char) : Bool :=
  if p = '.' then decide (c ≠ Char.ofNat 10) else decide (p = c)

/-- Match a pattern (literal characters plus `.`) against a prefix of the
subject; return the consumed text and the rest. -/
def matchPat : Str → Str → Option (Str × Str)
  | [], s => some ([], s)
  | _ :: _, [] => none
  | p :: ps, c :: cs =>
    if patCharMatches p c then
      match matchPat ps cs with
      | some (t, r) => some (c :: t, r)
      | none => none
    else none

/-- Greedy `[^<]*`: split off the maximal prefix without `<`. -/
def spanValue : Str → Str × Str
  | [] => ([], [])
  | c :: cs =>
    if c = '<' then ([], c :: cs)
    else
      let t := spanValue cs
      (c :: t.1, t.2)

/-- The open-marker pattern `<name>`. -/
def openPat (name : Str) : Str := '<' :: (name ++ ['>'])

/-- The close-marker pattern `</name>`. -/
def closePat (name : Str) : Str := '<' :: '/' :: (name ++ ['>'])

/-- Try to match `(<name>)([^<]*)(</name>)` at the head of `s`; on success
return the open-marker text, the value span, the close-marker text and the
rest of the subject.  Because the value class excludes `<` and the close
marker starts with a literal `<`, the greedy span admits no backtracking,
so the match is exactly the regex crate's. -/
def tryMatchProp (name s : Str) : Option (Str × Str × Str × Str) :=
  match matchPat (openPat name) s with
  | none => none
  | some (o, r1) =>
    let sv := spanValue r1
    match matchPat (closePat name) sv.2 with
    | none => none
    | some (cl, rest) => some (o, sv.1, cl, rest)

/-- The change description `name: 'old' -> 'new'` recorded by
`update_property_value` in src/xml.rs. -/
def mkPropDesc (name old new : Str) : Str :=
  name ++ (": ").data ++ [sqc] ++ old ++ [sqc] ++ (" -> ").data ++ [sqc] ++ new ++ [sqc]

/-- Fuelled embedding of `Regex::replace_all` with the closure of
`update_property_value` (src/xml.rs lines 81-108): scan left to right for
non-overlapping matches; at each match, if the trimmed value differs from
the desired value, emit the open marker text, the new value and the close
marker text and record a description; otherwise emit the match verbatim.
Returns (updated content, descriptions, did_change). -/
def scanPropsF (name newVal : Str) : Nat → Str → Str × List Str × Bool
  | 0, s => (s, [], false)
  | _ + 1, [] => ([], [], false)
  | fuel + 1, c :: rest =>
    match tryMatchProp name (c :: rest) with
    | some (o, v, cl, rest1) =>
      let t := scanPropsF name newVal fuel rest1
      if trimWs v = newVal then (o ++ v ++ cl ++ t.1, t.2.1, t.2.2)
      else (o ++ newVal ++ cl ++ t.1, mkPropDesc name (trimWs v) newVal :: t.2.1, true)
    | none =>
      let t := scanPropsF name newVal fuel rest
      (c :: t.1, t.2.1, t.2.2)

/-- `update_property_value` (src/xml.rs): one pass over the content. -/
def update_property_value (name newVal content : Str) : Str × List Str × Bool :=
  scanPropsF name newVal (content.length + 1) content

/-- One segment of the content as the scanner of `update_property_value`
decomposes it: a character outside any match, or a matched region
(open marker text, value span, close marker text). -/
inductive Seg where
  | raw (c : Char)
  | found (openT valT closeT : Str)
deriving DecidableEq

/-- Fuelled decomposition of the content into segments, with the same scan
as `scanPropsF`. -/
def parseSegsF (name : Str) : Nat → Str → List Seg
  | 0, _ => []
  | _ + 1, [] => []
  | fuel + 1, c :: rest =>
    match tryMatchProp name (c :: rest) with
    | some (o, v, cl, rest1) => Seg.found o v cl :: parseSegsF name fuel rest1
    | none => Seg.raw c :: parseSegsF name fuel rest

/-- The scanner's segment decomposition of a content string. -/
def parseSegs (name content : Str) : List Seg :=
  parseSegsF name (content.length + 1) content

/-- Reassemble the original content from segments. -/
def renderOrig : List Seg → Str
  | [] => []
  | Seg.raw c :: rest => c :: renderOrig rest
  | Seg.found o v cl :: rest => o ++ v ++ cl ++ renderOrig rest

/-- Reassemble the updated content: only value spans whose trimmed text
differs from the desired value are replaced; marker texts and raw
characters are emitted verbatim. -/
def renderNew (newVal : Str) : List Seg → Str
  | [] => []
  | Seg.raw c :: rest => c :: renderNew newVal rest
  | Seg.found o v cl :: rest =>
    o ++ (if trimWs v = newVal then v else newVal) ++ cl ++ renderNew newVal rest

/-- The descriptions the scan records, one per differing match. -/
def segDescs (name newVal : Str) : List Seg → List Str
  | [] => []
  | Seg.raw _ :: rest => segDescs name newVal rest
  | Seg.found _ v _ :: rest =>
    if trimWs v = newVal then segDescs name newVal rest
    else mkPropDesc name (trimWs v) newVal :: segDescs name newVal rest

/-- The `.bak` suffix appended to backed-up paths. -/
def bakSuffix : Str := (".bak").data

/-- The content part of `update_pom_xml_summary` (src/xml.rs lines 110-133):
the four sequential property updates, with their descriptions concatenated
in call order and the change flags or-ed. -/
def updatePomContent (runtime plugin munit xml : Str) : Str × List Str × Bool :=
  let r1 := update_property_value ("mule.version").data runtime xml
  let r2 := update_property_value ("munit.version").data munit r1.1
  let r3 := update_property_value ("mule.maven.plugin.version").data plugin r2.1
  let r4 := update_property_value ("app.runtime").data runtime r3.1
  (r4.1, r1.2.1 ++ r2.2.1 ++ r3.2.1 ++ r4.2.1, r1.2.2 || r2.2.2 || r3.2.2 || r4.2.2)

/-- `update_pom_xml_summary` (src/xml.rs): read the file (a failed read is
an `expect` panic), update the four properties, and if anything changed
copy a `.bak` sibling when `backup` is set and write the new content
unless `dry_run` is set. -/
def update_pom_xml_summary (fs : FS) (path runtime plugin munit : Str)
    (dryRun backup : Bool) : Except Str (FS × Bool × List Str) :=
  match fsLookup fs path with
  | some (FileData.text xml) =>
    let r := updatePomContent runtime plugin munit xml
    if r.2.2 then
      let fs1 := if backup then fsCopy fs path (path ++ bakSuffix) else fs
      let fs2 := if dryRun then fs1 else fsWrite fs1 path (FileData.text r.1)
      Except.ok (fs2, true, r.2.1)
    else Except.ok (fs, false, r.2.1)
  | _ => Except.error ("Failed to read pom.xml").data

/-- serde_json values, for the fragment the artifact descriptor uses
(numbers restricted to integers). -/
inductive JValue where
  | jnull
  | jbool (b : Bool)
  | jnum (n : Int)
  | jstr (s : Str)
  | jarr (elems : List JValue)
  | jobj (fields : List (Str × JValue))

mutual

/-- Structural size of a JSON value (used as serialization fuel). -/
def jsize : JValue → Nat
  | JValue.jarr xs => jsizeList xs + 1
  | JValue.jobj fields => jsizeFields fields + 1
  | _ => 1

/-- Structural size of a list of JSON values. -/
def jsizeList : List JValue → Nat
  | [] => 0
  | x :: xs => jsize x + jsizeList xs + 1

/-- Structural size of an object's field list. -/
def jsizeFields : List (Str × JValue) → Nat
  | [] => 0
  | f :: rest => jsize f.2 + jsizeFields rest + 1

end

mutual

/-- Structural equality of JSON values (serde's `PartialEq` on the
modelled fragment). -/
def jbeq : JValue → JValue → Bool
  | JValue.jnull, JValue.jnull => true
  | JValue.jbool a, JValue.jbool b => a == b
  | JValue.jnum a, JValue.jnum b => a == b
  | JValue.jstr a, JValue.jstr b => a == b
  | JValue.jarr a, JValue.jarr b => jbeqList a b
  | JValue.jobj a, JValue.jobj b => jbeqFields a b
  | _, _ => false

/-- Elementwise equality of value lists. -/
def jbeqList : List JValue → List JValue → Bool
  | [], [] => true
  | x :: xs, y :: ys => jbeq x y && jbeqList xs ys
  | _, _ => false

/-- Elementwise equality of field lists. -/
def jbeqFields : List (Str × JValue) → List (Str × JValue) → Bool
  | [], [] => true
  | f :: xs, g :: ys => f.1 == g.1 && jbeq f.2 g.2 && jbeqFields xs ys
  | _, _ => false

end

/-- `Map::get` / the lookup half of `get_mut`. -/
def objGet : List (Str × JValue) → Str → Option JValue
  | [], _ => none
  | (k1, v1) :: rest, k => if k1 = k then some v1 else objGet rest k

/-- The write-back half of `get_mut`: replace the value at an existing
key. -/
def objSet : List (Str × JValue) → Str → JValue → List (Str × JValue)
  | [], _, _ => []
  | (k1, v1) :: rest, k, v => if k1 = k then (k1, v) :: rest else (k1, v1) :: objSet rest k v

/-- serde's `Value == &str`: true only for an equal JSON string. -/
def jEqStr (v : JValue) (s : Str) : Bool :=
  match v with
  | JValue.jstr t => decide (t = s)
  | _ => false

/-- Lowercase hex digit. -/
def hexDigit (n : Nat) : Char :=
  if n < 10 then Char.ofNat (48 + n) else Char.ofNat (87 + n)

/-- serde_json's string escaping. -/
def escChar (c : Char) : Str :=
  if c = '"' then ['\\', '"']
  else if c = '\\' then ['\\', '\\']
  else if c = Char.ofNat 10 then ['\\', 'n']
  else if c = Char.ofNat 13 then ['\\', 'r']
  else if c = Char.ofNat 9 then ['\\', 't']
  else if c = Char.ofNat 8 then ['\\', 'b']
  else if c = Char.ofNat 12 then ['\\', 'f']
  else if c.toNat < 32 then ['\\', 'u', '0', '0', hexDigit (c.toNat / 16), hexDigit (c.toNat % 16)]
  else [c]

/-- A JSON string literal with quotes and escapes. -/
def jsonStrLit (s : Str) : Str :=
  '"' :: (s.map escChar).flatten ++ ['"']

/-- Compact serialization (serde's `Display` for `Value`), fuelled by
term size. -/
def serializeF : Nat → JValue → Str
  | 0, _ => []
  | _ + 1, JValue.jnull => ("null").data
  | _ + 1, JValue.jbool true => ("true").data
  | _ + 1, JValue.jbool false => ("false").data
  | _ + 1, JValue.jnum n => (toString n).data
  | _ + 1, JValue.jstr s => jsonStrLit s
  | _ + 1, JValue.jarr [] => ("[]").data
  | fuel + 1, JValue.jarr (x :: xs) =>
    '[' :: serializeF fuel x ++ (xs.map (fun y => ',' :: serializeF fuel y)).flatten ++ [']']
  | _ + 1, JValue.jobj [] => [lbrace, rbrace]
  | fuel + 1, JValue.jobj (f :: fsx) =>
    lbrace :: (jsonStrLit f.1 ++ ':' :: serializeF fuel f.2)
      ++ (fsx.map (fun g => ',' :: jsonStrLit g.1 ++ ':' :: serializeF fuel g.2)).flatten
      ++ [rbrace]

/-- Compact serialization of a value. -/
def jsonSerialize (v : JValue) : Str := serializeF (jsize v) v

/-- Two spaces of indentation per level, serde's pretty format. -/
def indentN : Nat → Str
  | 0 => []
  | n + 1 => ' ' :: ' ' :: indentN n

/-- The newline character. -/
def nlc : Char := Char.ofNat 10

/-- `serde_json::to_string_pretty`, fuelled by term size. -/
def prettyF : Nat → Nat → JValue → Str
  | 0, _, _ => []
  | _ + 1, _, JValue.jnull => ("null").data
  | _ + 1, _, JValue.jbool true => ("true").data
  | _ + 1, _, JValue.jbool false => ("false").data
  | _ + 1, _, JValue.jnum n => (toString n).data
  | _ + 1, _, JValue.jstr s => jsonStrLit s
  | _ + 1, _, JValue.jarr [] => ("[]").data
  | fuel + 1, ind, JValue.jarr (x :: xs) =>
    '[' :: nlc :: indentN (ind + 1) ++ prettyF fuel (ind + 1) x
      ++ (xs.map (fun y => ',' :: nlc :: indentN (ind + 1) ++ prettyF fuel (ind + 1) y)).flatten
      ++ nlc :: indentN ind ++ [']']
  | _ + 1, _, JValue.jobj [] => [lbrace, rbrace]
  | fuel + 1, ind, JValue.jobj (f :: fsx) =>
    lbrace :: nlc :: indentN (ind + 1)
      ++ (jsonStrLit f.1 ++ ':' :: ' ' :: prettyF fuel (ind + 1) f.2)
      ++ (fsx.map (fun g =>
            ',' :: nlc :: indentN (ind + 1) ++ jsonStrLit g.1 ++ ':' :: ' ' :: prettyF fuel (ind + 1) g.2)).flatten
      ++ nlc :: indentN ind ++ [rbrace]

/-- Pretty serialization of a value at the top level. -/
def prettyJson (v : JValue) : Str := prettyF (jsize v) 0 v

/-- Byte order on keys (Rust `String` `Ord`, the BTreeMap key order). -/
def strLtB : Str → Str → Bool
  | [], [] => false
  | [], _ :: _ => true
  | _ :: _, [] => false
  | a :: as1, b :: bs => if a.toNat < b.toNat then true
                         else if a.toNat = b.toNat then strLtB as1 bs else false

/-- BTreeMap insertion: keep keys sorted, a duplicate key replaces the
earlier value (serde keeps the last duplicate when parsing). -/
def sortedInsert : List (Str × JValue) → Str → JValue → List (Str × JValue)
  | [], k, v => [(k, v)]
  | (k1, v1) :: rest, k, v =>
    if k = k1 then (k, v) :: rest
    else if strLtB k k1 then (k, v) :: (k1, v1) :: rest
    else (k1, v1) :: sortedInsert rest k v

/-- Digit test. -/
def isDigit (c : Char) : Bool := decide ('0' ≤ c ∧ c ≤ '9')

/-- Decimal value of a digit run. -/
def natOfDigits (s : Str) : Nat :=
  s.foldl (fun a c => a * 10 + (c.toNat - 48)) 0

/-- Decode one JSON string-literal escape (the modelled fragment; `\\u`
sequences are outside it). -/
def decodeEsc (e : Char) : Option Char :=
  if e = '"' then some '"'
  else if e = '\\' then some '\\'
  else if e = '/' then some '/'
  else if e = 'n' then some nlc
  else if e = 't' then some (Char.ofNat 9)
  else if e = 'r' then some (Char.ofNat 13)
  else if e = 'b' then some (Char.ofNat 8)
  else if e = 'f' then some (Char.ofNat 12)
  else none

/-- Parse a JSON string body after the opening quote; return the decoded
text and the rest after the closing quote. -/
def parseStringBody : Nat → Str → Option (Str × Str)
  | 0, _ => none
  | _ + 1, [] => none
  | fuel + 1, c :: cs =>
    if c = '"' then some ([], cs)
    else if c = '\\' then
      match cs with
      | [] => none
      | e :: cs2 =>
        match decodeEsc e with
        | some d => (parseStringBody fuel cs2).map (fun t => (d :: t.1, t.2))
        | none => none
    else (parseStringBody fuel cs).map (fun t => (c :: t.1, t.2))

/-- Parse an (integer) JSON number literal; floats and exponents are
outside the modelled fragment and yield `none`, as do leading zeros
(which serde rejects). -/
def parseIntLit (s : Str) : Option (Int × Str) :=
  let core : Str → Option (Nat × Str) := fun u =>
    let ds := u.takeWhile isDigit
    let rest := u.dropWhile isDigit
    if ds = [] then none
    else if 1 < ds.length ∧ ds.headI = '0' then none
    else
      match rest with
      | r :: _ => if r = '.' ∨ r = 'e' ∨ r = 'E' then none else some (natOfDigits ds, rest)
      | [] => some (natOfDigits ds, rest)
  match s with
  | '-' :: u => (core u).map (fun t => (-(t.1 : Int), t.2))
  | _ => (core s).map (fun t => ((t.1 : Int), t.2))

mutual

/-- Fuelled recursive-descent parser for a JSON value (the modelled
fragment of `serde_json::from_str`). -/
def parseValueF : Nat → Str → Option (JValue × Str)
  | 0, _ => none
  | fuel + 1, s0 =>
    match dropWs s0 with
    | [] => none
    | c :: cs =>
      if c = lbrace then
        match dropWs cs with
        | d :: ds => if d = rbrace then some (JValue.jobj [], ds) else parseMembersF fuel [] (dropWs cs)
        | [] => none
      else if c = '[' then
        match dropWs cs with
        | d :: _ => if d = ']' then some (JValue.jarr [], (dropWs cs).tail) else parseElemsF fuel [] (dropWs cs)
        | [] => none
      else if c = '"' then
        (parseStringBody (cs.length + 1) cs).map (fun t => (JValue.jstr t.1, t.2))
      else if c = 't' then
        if ("rue").data.isPrefixOf cs then some (JValue.jbool true, cs.drop 3) else none
      else if c = 'f' then
        if ("alse").data.isPrefixOf cs then some (JValue.jbool false, cs.drop 4) else none
      else if c = 'n' then
        if ("ull").data.isPrefixOf cs then some (JValue.jnull, cs.drop 3) else none
      else
        (parseIntLit (c :: cs)).map (fun t => (JValue.jnum t.1, t.2))

/-- Parse the members of a nonempty JSON object, accumulating into the
sorted map. -/
def parseMembersF : Nat → List (Str × JValue) → Str → Option (JValue × Str)
  | 0, _, _ => none
  | fuel + 1, acc, s0 =>
    match dropWs s0 with
    | '"' :: cs =>
      match parseStringBody (cs.length + 1) cs with
      | none => none
      | some (k, r1) =>
        match dropWs r1 with
        | ':' :: r2 =>
          match parseValueF fuel r2 with
          | none => none
          | some (v, r3) =>
            let acc1 := sortedInsert acc k v
            match dropWs r3 with
            | ',' :: r4 => parseMembersF fuel acc1 r4
            | d :: r4 => if d = rbrace then some (JValue.jobj acc1, r4) else none
            | [] => none
        | _ => none
    | _ => none

/-- Parse the elements of a nonempty JSON array. -/
def parseElemsF : Nat → List JValue → Str → Option (JValue × Str)
  | 0, _, _ => none
  | fuel + 1, acc, s0 =>
    match parseValueF fuel s0 with
    | none => none
    | some (v, r1) =>
      let acc1 := acc ++ [v]
      match dropWs r1 with
      | ',' :: r2 => parseElemsF fuel acc1 r2
      | ']' :: r2 => some (JValue.jarr acc1, r2)
      | _ => none

end

/-- `serde_json::from_str` on a whole document: one value and then only
trailing whitespace. -/
def parseJson (s : Str) : Option JValue :=
  match parseValueF (s.length + 2) s with
  | some (v, rest) => if dropWs rest = [] then some v else none
  | none => none

/-- The key `minMuleVersion`. -/
def minKey : Str := ("minMuleVersion").data

/-- The key `requiredProduct`. -/
def rpKey : Str := ("requiredProduct").data

/-- The key `javaSpecificationVersions`. -/
def jsvKey : Str := ("javaSpecificationVersions").data

/-- The `minMuleVersion: '<old>' -> '<new>'` description; the old side is
the serde `Display` of the current value (so a JSON string keeps its
quotes), the new side is the plain desired string. -/
def minMuleDesc (v : JValue) (minV : Str) : Str :=
  minKey ++ (": ").data ++ [sqc] ++ jsonSerialize v ++ [sqc]
    ++ (" -> ").data ++ [sqc] ++ minV ++ [sqc]

/-- The fixed description for the nested java-versions field. -/
def jsvDesc : Str := rpKey ++ ['.'] ++ jsvKey

/-- The value part of `update_mule_artifact_json_summary`
(src/json_ops.rs lines 91-117): update `minMuleVersion` and
`requiredProduct.javaSpecificationVersions` in place when they exist and
differ from the desired values.  Returns (value, field descriptions,
changed). -/
def updateArtifactContent (j : JValue) (minV : Str) (javas : List Str) :
    JValue × List Str × Bool :=
  match j with
  | JValue.jobj l =>
    let step1 : List (Str × JValue) × List Str × Bool :=
      match objGet l minKey with
      | some v =>
        if jEqStr v minV then (l, [], false)
        else (objSet l minKey (JValue.jstr minV), [minMuleDesc v minV], true)
      | none => (l, [], false)
    let l1 := step1.1
    let step2 : List (Str × JValue) × List Str × Bool :=
      match objGet l1 rpKey with
      | some (JValue.jobj rl) =>
        match objGet rl jsvKey with
        | some jv =>
          let nv := JValue.jarr (javas.map JValue.jstr)
          if jbeq jv nv then (l1, [], false)
          else (objSet l1 rpKey (JValue.jobj (objSet rl jsvKey nv)), [jsvDesc], true)
        | none => (l1, [], false)
      | _ => (l1, [], false)
    (JValue.jobj step2.1, step1.2.1 ++ step2.2.1, step1.2.2 || step2.2.2)
  | _ => (j, [], false)

/-- `update_mule_artifact_json_summary` (src/json_ops.rs): read the file
(a failed read or parse is an `expect` panic), update the two fields, and
if anything changed copy a `.bak` sibling when `backup` is set and write
the pretty-printed value unless `dry_run` is set. -/
def update_mule_artifact_json_summary (fs : FS) (path minV : Str)
    (javas : List Str) (dryRun backup : Bool) : Except Str (FS × Bool × List Str) :=
  match fsLookup fs path with
  | some (FileData.text a) =>
    match parseJson a with
    | none => Except.error ("Invalid JSON").data
    | some j =>
      let r := updateArtifactContent j minV javas
      if r.2.2 then
        let fs1 := if backup then fsCopy fs path (path ++ bakSuffix) else fs
        let fs2 := if dryRun then fs1 else fsWrite fs1 path (FileData.text (prettyJson r.1))
        Except.ok (fs2, true, r.2.1)
      else Except.ok (fs, false, r.2.1)
  | _ => Except.error ("Failed to read mule-artifact.json").data

/-- The extension allow-list of `traverse_and_replace_summary`
(src/file_ops.rs lines 100-110). -/
def allowedExts : List Str :=
  [("xml").data, ("yaml").data, ("yml").data, ("properties").data,
   ("txt").data, ("java").data, ("groovy").data, ("json").data]

/-- The file-name component of a path (after the last `/`). -/
def fileNameOf (p : Str) : Str :=
  (p.reverse.takeWhile (fun c => decide (c ≠ '/'))).reverse

/-- `Path::extension().and_then(to_str).unwrap_or("")`: the text after the
last dot of the file name; a dotless name or a name whose only dot leads
(a hidden file) has no extension. -/
def extOf (p : Str) : Str :=
  let n := fileNameOf p
  let revExt := n.reverse.takeWhile (fun c => decide (c ≠ '.'))
  if revExt.length = n.length then []
  else if revExt.length + 1 = n.length then []
  else revExt.reverse

/-- The replacement description `<path>: '<from>' -> '<to>'`. -/
def mkRepDesc (path f t : Str) : Str :=
  path ++ (": ").data ++ [sqc] ++ f ++ [sqc] ++ (" -> ").data ++ [sqc] ++ t ++ [sqc]

/-- The rule loop of `traverse_and_replace_summary` (src/file_ops.rs lines
114-121): apply each `(from, to)` pair in order; when `from` occurs in the
current content, record a description, replace every occurrence and set
the changed flag.  Returns (content, descriptions, changed). -/
def applyRules (path : Str) : List (Str × Str) → Str → Str × List Str × Bool
  | [], c => (c, [], false)
  | (f, t) :: rs, c =>
    if occurs f c then
      let r := applyRules path rs (replaceAll f t c)
      (r.1, mkRepDesc path f t :: r.2.1, true)
    else applyRules path rs c

/-- One file visit of `traverse_and_replace_summary`: extension filter,
read (an unreadable file is silently skipped), rule application, and the
conditional backup and write. -/
def processFile (rules : List (Str × Str)) (dryRun backup : Bool)
    (p : Str) (fs : FS) : FS × List Str :=
  if extOf p ∈ allowedExts then
    match fsLookup fs p with
    | some (FileData.text c) =>
      let r := applyRules p rules c
      if r.2.2 then
        let fs1 := if backup then fsCopy fs p (p ++ bakSuffix) else fs
        let fs2 := if dryRun then fs1 else fsWrite fs1 p (FileData.text r.1)
        (fs2, r.2.1)
      else (fs, r.2.1)
    | _ => (fs, [])
  else (fs, [])

/-- The walk of `traverse_and_replace_summary` over the snapshot of paths,
threading the filesystem and concatenating the per-file descriptions. -/
def traverseGo (rules : List (Str × Str)) (dryRun backup : Bool) :
    List Str → FS → FS × List Str
  | [], fs => (fs, [])
  | p :: ps, fs =>
    let r := processFile rules dryRun backup p fs
    let rest := traverseGo rules dryRun backup ps r.1
    (rest.1, r.2 ++ rest.2)

/-- `traverse_and_replace_summary` (src/file_ops.rs lines 89-136).  The
modelled filesystem is exactly the tree under the project root, in walk
order. -/
def traverse_and_replace_summary (rules : List (Str × Str))
    (dryRun backup : Bool) (fs : FS) : FS × List Str :=
  traverseGo rules dryRun backup (fs.map Prod.fst) fs

/-- `MigrationConfig` (src/config.rs), with the nested artifact sub-record
flattened into its two fields. -/
structure MigrationConfig where
  app_runtime_version : Str
  mule_maven_plugin_version : Str
  munit_version : Str
  min_mule_version : Str
  java_specification_versions : List Str
  replacements : List (Str × Str)

/-- `MigrationOptions` (src/lib.rs); the config path is abstracted into
the load result handed to `run_migration`. -/
structure MigrationOptions where
  project_root : Str
  dry_run : Bool
  backup : Bool
  update_maven_deps : Bool
  build_mule_project : Bool

/-- The path of descriptor A. -/
def pomPath (root : Str) : Str := root ++ ("/pom.xml").data

/-- The path of descriptor B. -/
def artifactPath (root : Str) : Str := root ++ ("/mule-artifact.json").data

/-- `is_mule_project` (src/lib.rs lines 186-191): both descriptor files
must exist. -/
def is_mule_project (fs : FS) (root : Str) : Bool :=
  fsExists fs (pomPath root) && fsExists fs (artifactPath root)

/-- The run's aggregate summary data handed to `print_summary`. -/
structure Report where
  changedFiles : List Str
  changedProperties : List Str
  changedJson : List Str
  replacementsSummary : List Str
  errors : List Str
deriving DecidableEq

/-- The empty report at run start. -/
def emptyReport : Report := Report.mk [] [] [] [] []

/-- Outcome of `run_migration` as observed by `main`: an `expect` panic
(process aborts, no summary), an error return (with whether
`print_summary` ran before it), or success (summary always printed). -/
inductive RunResult where
  | panic (msg : Str) (fs : FS)
  | fatal (msg : Str) (printedSummary : Bool) (rep : Report) (fs : FS)
  | success (rep : Report) (fs : FS)
deriving DecidableEq

/-- The not-a-project error message. -/
def notProjectMsg (root : Str) : Str :=
  [sqc] ++ root ++ [sqc]
    ++ (" is not a Mule project (pom.xml or mule-artifact.json missing)").data

/-- The missing-pom warning message. -/
def noPomMsg (root : Str) : Str := ("No pom.xml found at ").data ++ pomPath root

/-- The missing-artifact warning message. -/
def noArtifactMsg (root : Str) : Str :=
  ("No mule-artifact.json found at ").data ++ artifactPath root

/-- The only modelled filesystem effect of `update_maven_dependencies`
(src/lib.rs lines 146-169): removing `pom.xml.versionsBackup` when it
exists.  The external `mvn` invocation itself is outside the model. -/
def mavenCleanup (root : Str) (fs : FS) : FS :=
  let p := root ++ ("/pom.xml.versionsBackup").data
  if fsExists fs p then fsRemove fs p else fs

/-- Step 1 of the descriptor updates in `run_migration` (src/lib.rs lines
77-97): if `pom.xml` exists run the XML updater, else record a warning.
Returns (fs, changed-file additions, property descriptions, warnings). -/
def pomStage (cfg : MigrationConfig) (opts : MigrationOptions) (fs : FS) :
    Except Str (FS × List Str × List Str × List Str) :=
  if fsExists fs (pomPath opts.project_root) then
    match update_pom_xml_summary fs (pomPath opts.project_root)
        cfg.app_runtime_version cfg.mule_maven_plugin_version cfg.munit_version
        opts.dry_run opts.backup with
    | Except.error m => Except.error m
    | Except.ok (fs2, changed, props) =>
      if changed then Except.ok (fs2, [pomPath opts.project_root], props, [])
      else Except.ok (fs2, [], [], [])
  else Except.ok (fs, [], [], [noPomMsg opts.project_root])

/-- Step 2 of the descriptor updates in `run_migration` (src/lib.rs lines
99-118): same shape for `mule-artifact.json`. -/
def artifactStage (cfg : MigrationConfig) (opts : MigrationOptions) (fs : FS) :
    Except Str (FS × List Str × List Str × List Str) :=
  if fsExists fs (artifactPath opts.project_root) then
    match update_mule_artifact_json_summary fs (artifactPath opts.project_root)
        cfg.min_mule_version cfg.java_specification_versions
        opts.dry_run opts.backup with
    | Except.error m => Except.error m
    | Except.ok (fs2, changed, fields) =>
      if changed then Except.ok (fs2, [artifactPath opts.project_root], fields, [])
      else Except.ok (fs2, [], [], [])
  else Except.ok (fs, [], [], [noArtifactMsg opts.project_root])

/-- `run_migration` (src/lib.rs lines 40-143).  `cfgLoad` is the outcome
of `MigrationConfig::from_file`; a load error propagates through `?`
without reaching `print_summary`.  The not-a-project path prints the
summary and then returns the error. -/
def run_migration (cfgLoad : Except Str MigrationConfig)
    (opts : MigrationOptions) (fs0 : FS) : RunResult :=
  if is_mule_project fs0 opts.project_root then
    match cfgLoad with
    | Except.error e => RunResult.fatal e false emptyReport fs0
    | Except.ok cfg =>
      let fs1 := if opts.update_maven_deps then mavenCleanup opts.project_root fs0 else fs0
      match pomStage cfg opts fs1 with
      | Except.error m => RunResult.panic m fs1
      | Except.ok (fs2, cf1, props, errs1) =>
        match artifactStage cfg opts fs2 with
        | Except.error m => RunResult.panic m fs2
        | Except.ok (fs3, cf2, jfields, errs2) =>
          let tr := traverse_and_replace_summary cfg.replacements opts.dry_run opts.backup fs3
          RunResult.success (Report.mk (cf1 ++ cf2) props jfields tr.2 (errs1 ++ errs2)) tr.1
  else
    RunResult.fatal (notProjectMsg opts.project_root) true
      (Report.mk [] [] [] [] [notProjectMsg opts.project_root]) fs0

/-- Is a value a JSON object? -/
def isObj : JValue → Bool
  | JValue.jobj _ => true
  | _ => false

/-- The nested lookup `requiredProduct.javaSpecificationVersions`. -/
def jsvPathGet (l : List (Str × JValue)) : Option JValue :=
  match objGet l rpKey with
  | some (JValue.jobj rl) => objGet rl jsvKey
  | _ => none

theorem fsLookup_fsWrite_ne (fs : FS) (p q : Str) (d : FileData) (h : q ≠ p) :
    fsLookup (fsWrite fs p d) q = fsLookup fs q := by
  have hpq : ¬ p = q := fun h1 => h h1.symm
  induction fs with
  | nil => simp [fsWrite, fsLookup, hpq]
  | cons e rest ih =>
    cases e with
    | mk a b =>
      by_cases ha : a = p
      · subst ha
        simp [fsWrite, fsLookup, hpq]
      · simp only [fsWrite, if_neg ha, fsLookup]
        rw [ih]

theorem fsLookup_fsWrite_eq (fs : FS) (p : Str) (d : FileData) :
    fsLookup (fsWrite fs p d) p = some d := by
  induction fs with
  | nil => simp [fsWrite, fsLookup]
  | cons e rest ih =>
    cases e with
    | mk a b =>
      by_cases ha : a = p
      · subst ha; simp [fsWrite, fsLookup]
      · simp only [fsWrite, if_neg ha, fsLookup]
        exact ih

theorem fsLookup_mem (fs : FS) (p : Str) (d : FileData)
    (h : fsLookup fs p = some d) : (p, d) ∈ fs := by
  induction fs with
  | nil => simp [fsLookup] at h
  | cons e rest ih =>
    cases e with
    | mk q e =>
      by_cases hq : q = p
      · subst hq
        simp [fsLookup] at h
        simp [h]
      · simp only [fsLookup] at h
        rw [if_neg hq] at h
        exact List.mem_cons_of_mem _ (ih h)

theorem fsWrite_map_fst (fs : FS) (p : Str) (d : FileData)
    (h : fsExists fs p = true) : (fsWrite fs p d).map Prod.fst = fs.map Prod.fst := by
  induction fs with
  | nil => simp [fsExists, fsLookup] at h
  | cons e rest ih =>
    cases e with
    | mk q e =>
      by_cases hq : q = p
      · subst hq; simp [fsWrite]
      · simp only [fsWrite]
        rw [if_neg hq]
        simp only [List.map_cons]
        simp only [fsExists, fsLookup] at h
        rw [if_neg hq] at h
        rw [ih h]

theorem ne_append_of_ne_suffix (a b c : Str) (h : b ≠ c) : a ++ b ≠ a ++ c := by
  intro he
  exact h (List.append_cancel_left he)

theorem self_ne_append_bak (p : Str) : p ≠ p ++ bakSuffix := by
  intro h
  have := congrArg List.length h
  simp [bakSuffix] at this

theorem pomPath_ne_artifactPath (root : Str) : pomPath root ≠ artifactPath root := by
  intro h
  have := congrArg List.length h
  simp [pomPath, artifactPath] at this

theorem matchPat_append : ∀ (pat s t r : Str), matchPat pat s = some (t, r) →
    s = t ++ r ∧ t.length = pat.length := by
  intro pat
  induction pat with
  | nil =>
    intro s t r h
    simp [matchPat] at h
    simp [h.1.symm, h.2.symm]
  | cons p ps ih =>
    intro s t r h
    cases s with
    | nil => simp [matchPat] at h
    | cons c cs =>
      simp only [matchPat] at h
      by_cases hm : patCharMatches p c
      · rw [if_pos hm] at h
        cases hmp : matchPat ps cs with
        | none => rw [hmp] at h; simp at h
        | some tr =>
          rw [hmp] at h
          cases tr with
          | mk t1 r1 =>
            simp at h
            obtain ⟨ht, hr⟩ := h
            obtain ⟨h1, h2⟩ := ih cs t1 r1 hmp
            subst ht hr h1
            simp [h2]
      · rw [if_neg hm] at h; simp at h

theorem spanValue_append : ∀ s : Str, (spanValue s).1 ++ (spanValue s).2 = s := by
  intro s
  induction s with
  | nil => simp [spanValue]
  | cons c cs ih =>
    by_cases hc : c = '<'
    · simp [spanValue, hc]
    · simp only [spanValue]
      rw [if_neg hc]
      simpa using ih

theorem tryMatchProp_decomp (name s o v cl r : Str)
    (h : tryMatchProp name s = some (o, v, cl, r)) :
    s = o ++ (v ++ (cl ++ r)) ∧ o.length = name.length + 2 := by
  simp only [tryMatchProp] at h
  cases ho : matchPat (openPat name) s with
  | none => rw [ho] at h; simp at h
  | some or1 =>
    rw [ho] at h
    cases or1 with
    | mk o1 r1 =>
      simp only [] at h
      cases hc : matchPat (closePat name) (spanValue r1).2 with
      | none => rw [hc] at h; simp at h
      | some clr =>
        rw [hc] at h
        cases clr with
        | mk cl1 rest1 =>
          simp at h
          obtain ⟨h1, h2, h3, h4⟩ := h
          subst h1 h2 h3 h4
          obtain ⟨hs, hol⟩ := matchPat_append _ _ _ _ ho
          obtain ⟨hs2, _⟩ := matchPat_append _ _ _ _ hc
          constructor
          · rw [hs]
            have h5 := spanValue_append r1
            rw [hs2] at h5
            exact congrArg (fun z => o1 ++ z) h5.symm
          · simpa [openPat] using hol

theorem tryMatchProp_rest_lt (name : Str) (c : Char) (rest o v cl r1 : Str)
    (h : tryMatchProp name (c :: rest) = some (o, v, cl, r1)) :
    r1.length + 2 ≤ rest.length + 1 := by
  obtain ⟨hd, hol⟩ := tryMatchProp_decomp name (c :: rest) o v cl r1 h
  have := congrArg List.length hd
  simp only [List.length_cons, List.length_append] at this
  omega

theorem parseSegsF_renderOrig (name : Str) :
    ∀ fuel s, s.length < fuel → renderOrig (parseSegsF name fuel s) = s := by
  intro fuel
  induction fuel with
  | zero => intro s h; exact absurd h (Nat.not_lt_zero _)
  | succ fuel ih =>
    intro s h
    cases s with
    | nil => simp [parseSegsF, renderOrig]
    | cons c rest =>
      cases htm : tryMatchProp name (c :: rest) with
      | none =>
        have h1 : rest.length < fuel := by simp at h; omega
        simp only [parseSegsF, htm, renderOrig]
        rw [ih rest h1]
      | some q =>
        obtain ⟨o, v, cl, r1⟩ := q
        have hlt := tryMatchProp_rest_lt name c rest o v cl r1 htm
        have h1 : r1.length < fuel := by simp at h; omega
        have hd := (tryMatchProp_decomp name (c :: rest) o v cl r1 htm).1
        simp only [parseSegsF, htm, renderOrig]
        rw [ih r1 h1, hd]
        simp [List.append_assoc]

theorem scanPropsF_eq_segs (name nv : Str) :
    ∀ fuel s, s.length < fuel →
      scanPropsF name nv fuel s =
        (renderNew nv (parseSegsF name fuel s),
         segDescs name nv (parseSegsF name fuel s),
         !(segDescs name nv (parseSegsF name fuel s)).isEmpty) := by
  intro fuel
  induction fuel with
  | zero => intro s h; exact absurd h (Nat.not_lt_zero _)
  | succ fuel ih =>
    intro s h
    cases s with
    | nil => simp [scanPropsF, parseSegsF, renderNew, segDescs]
    | cons c rest =>
      cases htm : tryMatchProp name (c :: rest) with
      | none =>
        have h1 : rest.length < fuel := by simp at h; omega
        simp only [scanPropsF, htm, parseSegsF, renderNew, segDescs]
        rw [ih rest h1]
      | some q =>
        obtain ⟨o, v, cl, r1⟩ := q
        have hlt := tryMatchProp_rest_lt name c rest o v cl r1 htm
        have h1 : r1.length < fuel := by simp at h; omega
        by_cases he : trimWs v = nv
        · simp only [scanPropsF, htm, parseSegsF, renderNew, segDescs, if_pos he]
          rw [ih r1 h1]
        · simp only [scanPropsF, htm, parseSegsF, renderNew, segDescs, if_neg he]
          rw [ih r1 h1]
          simp

theorem segDescs_nil_renderNew (nv : Str) :
    ∀ segs, segDescs name nv segs = [] → renderNew nv segs = renderOrig segs := by
  intro segs
  induction segs with
  | nil => intro _; rfl
  | cons seg rest ih =>
    intro h
    cases seg with
    | raw c =>
      simp only [segDescs] at h
      simp only [renderNew, renderOrig, ih h]
    | found o v cl =>
      by_cases he : trimWs v = nv
      · simp only [segDescs, if_pos he] at h
        simp only [renderNew, renderOrig, if_pos he, ih h]
      · simp only [segDescs, if_neg he] at h
        exact absurd h (by simp)

/-- C4: the XML Property Updater processes every occurrence of the
open-marker/value/close-marker region in one pass.  The content decomposes
into raw characters and matched regions (`parseSegs`); reassembling the
decomposition unchanged gives back exactly the input (so every byte
outside the value spans is untouched), and `update_property_value` equals
that decomposition with precisely the differing value spans replaced by
the desired value, one description `name: 'old' -> 'new'` (old trimmed)
per span whose trimmed value differs, no description for a span whose
trimmed value equals the desired value, and the change flag set exactly
when some description was recorded. -/
theorem C4_one_pass_update (name newVal s : Str) :
    renderOrig (parseSegs name s) = s ∧
    update_property_value name newVal s =
      (renderNew newVal (parseSegs name s),
       segDescs name newVal (parseSegs name s),
       !(segDescs name newVal (parseSegs name s)).isEmpty) :=
  ⟨parseSegsF_renderOrig name (s.length + 1) s (Nat.lt_succ_self _),
   scanPropsF_eq_segs name newVal (s.length + 1) s (Nat.lt_succ_self _)⟩

/-- C9: the match pattern is built by direct interpolation of the property
name with no escaping, so with the program's real property name
`mule.version` the dot acts as a wildcard: the content
`<muleXversion>1</muleXversion>`, whose literal marker text
`muleXversion` is not the property name, is matched and rewritten, and the
change description is recorded under `mule.version`. -/
theorem C9_unescaped_dot_matches_other_marker :
    update_property_value ("mule.version").data ("4.9.4").data
        ("<muleXversion>1</muleXversion>").data
      = (("<muleXversion>4.9.4</muleXversion>").data,
         [mkPropDesc ("mule.version").data ("1").data ("4.9.4").data], true)
    ∧ ("muleXversion").data ≠ ("mule.version").data := by
  constructor
  · decide
  · decide

theorem applyRules_changed_false (path : Str) :
    ∀ rules c, (applyRules path rules c).2.2 = false →
      applyRules path rules c = (c, [], false) := by
  intro rules
  induction rules with
  | nil => intro c _; rfl
  | cons r rs ih =>
    intro c h
    cases r with
    | mk f t =>
      by_cases ho : occurs f c = true
      · simp only [applyRules, if_pos ho] at h ⊢
        simp at h
      · rw [Bool.not_eq_true] at ho
        simp only [applyRules, ho, Bool.false_eq_true, if_false] at h ⊢
        exact ih c h

theorem applyRules_no_occ (path : Str) :
    ∀ rules c, (∀ r ∈ rules, occurs r.1 c = false) →
      applyRules path rules c = (c, [], false) := by
  intro rules
  induction rules with
  | nil => intro c _; rfl
  | cons r rs ih =>
    intro c h
    cases r with
    | mk f t =>
      have hf : occurs f c = false := h (f, t) (List.mem_cons_self _ _)
      simp only [applyRules, hf, Bool.false_eq_true, if_false]
      exact ih c (fun r hr => h r (List.mem_cons_of_mem _ hr))

theorem processFile_not_changed (rules : List (Str × Str)) (dryRun backup : Bool)
    (p : Str) (fs : FS) (c : Str)
    (hl : fsLookup fs p = some (FileData.text c))
    (hch : (applyRules p rules c).2.2 = false) :
    processFile rules dryRun backup p fs = (fs, []) := by
  have h2 := applyRules_changed_false p rules c hch
  by_cases he : extOf p ∈ allowedExts
  · simp only [processFile, if_pos he, hl, h2]
    simp
  · simp only [processFile, if_neg he]

theorem processFile_binary (rules : List (Str × Str)) (dryRun backup : Bool)
    (p : Str) (fs : FS) (hl : fsLookup fs p = some FileData.binary) :
    processFile rules dryRun backup p fs = (fs, []) := by
  by_cases he : extOf p ∈ allowedExts
  · simp only [processFile, if_pos he, hl]
  · simp only [processFile, if_neg he]

theorem replaceGo_length (fr t : Str) (hfr : fr ≠ []) :
    ∀ fuel s, s.length < fuel →
      (replaceGo fr t fuel s).length + occCount fr fuel s * fr.length
        = s.length + occCount fr fuel s * t.length := by
  intro fuel
  induction fuel with
  | zero => intro s h; exact absurd h (Nat.not_lt_zero _)
  | succ fuel ih =>
    intro s h
    cases s with
    | nil => simp [replaceGo, occCount]
    | cons c cs =>
      by_cases hp : fr.isPrefixOf (c :: cs) = true
      · have hpre : fr <+: (c :: cs) := (List.isPrefixOf_iff_prefix).mp hp
        have hfl : fr.length ≤ cs.length + 1 := by
          simpa using hpre.length_le
        have h1 : ((c :: cs).drop fr.length).length < fuel := by
          simp only [List.length_drop, List.length_cons]
          simp only [List.length_cons] at h
          have hpos : 1 ≤ fr.length := by
            cases fr with
            | nil => exact absurd rfl hfr
            | cons a as => simp
          omega
        have ih1 := ih ((c :: cs).drop fr.length) h1
        simp only [replaceGo, occCount, if_pos hp, List.length_append, Nat.succ_mul]
        simp only [List.length_drop, List.length_cons] at ih1 ⊢
        have hpos : 1 ≤ fr.length := by
          cases fr with
          | nil => exact absurd rfl hfr
          | cons a as => simp
        omega
      · rw [Bool.not_eq_true] at hp
        have h1 : cs.length < fuel := by
          simp only [List.length_cons] at h; omega
        have ih1 := ih cs h1
        simp only [replaceGo, occCount, hp, Bool.false_eq_true, if_false, List.length_cons]
        omega

theorem occurs_occCount_pos (fr : Str) (hfr : fr ≠ []) :
    ∀ fuel s, s.length < fuel → occurs fr s = true → 1 ≤ occCount fr fuel s := by
  intro fuel
  induction fuel with
  | zero => intro s h; exact fun _ => absurd h (Nat.not_lt_zero _)
  | succ fuel ih =>
    intro s h hocc
    cases s with
    | nil =>
      simp only [occurs, decide_eq_true_eq] at hocc
      exact absurd hocc hfr
    | cons c cs =>
      by_cases hp : fr.isPrefixOf (c :: cs) = true
      · simp only [occCount, if_pos hp]
        omega
      · rw [Bool.not_eq_true] at hp
        simp only [occurs, hp, Bool.false_or] at hocc
        have h1 : cs.length < fuel := by simp only [List.length_cons] at h; omega
        simp only [occCount, hp, Bool.false_eq_true, if_false]
        exact ih cs h1 hocc

theorem replaceGo_ne_of_length_eq (fr t : Str) (hfr : fr ≠ [])
    (hlen : fr.length = t.length) (hne : fr ≠ t) :
    ∀ fuel s, s.length < fuel → occurs fr s = true →
      replaceGo fr t fuel s ≠ s := by
  intro fuel
  induction fuel with
  | zero => intro s h; exact fun _ => absurd h (Nat.not_lt_zero _)
  | succ fuel ih =>
    intro s h hocc
    cases s with
    | nil =>
      simp only [occurs, decide_eq_true_eq] at hocc
      exact absurd hocc hfr
    | cons c cs =>
      by_cases hp : fr.isPrefixOf (c :: cs) = true
      · have hpre : fr <+: (c :: cs) := (List.isPrefixOf_iff_prefix).mp hp
        obtain ⟨u, hu⟩ := hpre
        have hdrop : (c :: cs).drop fr.length = u := by
          rw [← hu]; exact List.drop_left fr u
        simp only [replaceGo, if_pos hp, hdrop]
        intro heq
        rw [← hu] at heq
        have := (List.append_inj heq (hlen.symm)).1
        exact hne this.symm
      · rw [Bool.not_eq_true] at hp
        simp only [occurs, hp, Bool.false_or] at hocc
        have h1 : cs.length < fuel := by simp only [List.length_cons] at h; omega
        simp only [replaceGo, hp, Bool.false_eq_true, if_false]
        intro heq
        exact ih cs h1 hocc (by injection heq)

theorem replaceAll_ne (fr t s : Str) (hfr : fr ≠ []) (hne : fr ≠ t)
    (hocc : occurs fr s = true) : replaceAll fr t s ≠ s := by
  unfold replaceAll
  rw [if_neg hfr]
  by_cases hl : fr.length = t.length
  · exact replaceGo_ne_of_length_eq fr t hfr hl hne (s.length + 1) s (Nat.lt_succ_self _) hocc
  · intro heq
    have hlen := replaceGo_length fr t hfr (s.length + 1) s (Nat.lt_succ_self _)
    have hc := occurs_occCount_pos fr hfr (s.length + 1) s (Nat.lt_succ_self _) hocc
    rw [heq] at hlen
    have h2 : occCount fr (s.length + 1) s * fr.length
        = occCount fr (s.length + 1) s * t.length := by omega
    exact hl (Nat.eq_of_mul_eq_mul_left (by omega) h2)

/-- C1 (counterexample): a project root where `pom.xml` exists (holding a
property the configuration would update) but `mule-artifact.json` is
missing.  The claim says this single omission is recorded as a warning and
the other descriptor is still processed; instead `run_migration` fails at
once with the not-a-project error, before any mutation, leaving the pom
untouched. -/
theorem C1_counterexample :
    run_migration
        (Except.ok (MigrationConfig.mk ("2").data ("p").data ("m").data ("x").data [] []))
        (MigrationOptions.mk ("r").data false false false false)
        [(pomPath ("r").data, FileData.text ("<mule.version>1</mule.version>").data)]
      = RunResult.fatal (notProjectMsg ("r").data) true
          (Report.mk [] [] [] [] [notProjectMsg ("r").data])
          [(pomPath ("r").data, FileData.text ("<mule.version>1</mule.version>").data)]
    ∧ (updatePomContent ("2").data ("p").data ("m").data
        ("<mule.version>1</mule.version>").data).2.2 = true := by
  constructor
  · decide
  · decide

/-- C1 (amended): if either descriptor file is missing at the project
root, `run_migration` fails before any mutation with the
not-a-recognized-project error (printing the summary first); the
per-descriptor warning branches are never reached, because `is_mule_project`
demands both files. -/
theorem C1_amended_either_missing_is_fatal (cfgLoad : Except Str MigrationConfig)
    (opts : MigrationOptions) (fs : FS)
    (h : fsExists fs (pomPath opts.project_root) = false
       ∨ fsExists fs (artifactPath opts.project_root) = false) :
    run_migration cfgLoad opts fs
      = RunResult.fatal (notProjectMsg opts.project_root) true
          (Report.mk [] [] [] [] [notProjectMsg opts.project_root]) fs := by
  have hm : is_mule_project fs opts.project_root = false := by
    cases h with
    | inl h1 => simp [is_mule_project, h1]
    | inr h1 => simp [is_mule_project, h1]
  simp [run_migration, hm]

/-- Witness for C1 at a concrete one-descriptor project. -/
theorem C1_witness :
    run_migration (Except.ok (MigrationConfig.mk [] [] [] [] [] []))
        (MigrationOptions.mk ("r").data false false false false)
        [(pomPath ("r").data, FileData.text [])]
      = RunResult.fatal (notProjectMsg ("r").data) true
          (Report.mk [] [] [] [] [notProjectMsg ("r").data])
          [(pomPath ("r").data, FileData.text [])] :=
  C1_amended_either_missing_is_fatal _ _ _ (Or.inr (by decide))

/-- C7 (counterexample): with both descriptors present but a failing
configuration load, `run_migration` returns the error through `?` without
reaching `print_summary` — a fatal path with no summary, contradicting the
claim that the summary prints on every fatal path. -/
theorem C7_counterexample :
    run_migration (Except.error ("config boom").data)
        (MigrationOptions.mk ("r").data false false false false)
        [(pomPath ("r").data, FileData.text []), (artifactPath ("r").data, FileData.text [])]
      = RunResult.fatal ("config boom").data false emptyReport
          [(pomPath ("r").data, FileData.text []), (artifactPath ("r").data, FileData.text [])] := by
  decide

/-- C7 (amended): the summary is printed before the error return on the
not-a-project fatal path, but a configuration-load failure propagates
without printing any summary. -/
theorem C7_amended_summary_not_on_config_failure (e : Str)
    (cfgLoad : Except Str MigrationConfig) (opts : MigrationOptions) (fs : FS) :
    (is_mule_project fs opts.project_root = false →
      run_migration cfgLoad opts fs
        = RunResult.fatal (notProjectMsg opts.project_root) true
            (Report.mk [] [] [] [] [notProjectMsg opts.project_root]) fs) ∧
    (is_mule_project fs opts.project_root = true →
      run_migration (Except.error e) opts fs
        = RunResult.fatal e false emptyReport fs) := by
  constructor
  · intro h; simp [run_migration, h]
  · intro h; simp [run_migration, h]

/-- Witness for C7 at concrete states. -/
theorem C7_witness :
    run_migration (Except.error ("x").data)
        (MigrationOptions.mk ("r").data false false false false) []
      = RunResult.fatal (notProjectMsg ("r").data) true
          (Report.mk [] [] [] [] [notProjectMsg ("r").data]) []
    ∧ run_migration (Except.error ("x").data)
        (MigrationOptions.mk ("r").data false false false false)
        [(pomPath ("r").data, FileData.text []),
         (artifactPath ("r").data, FileData.text [])]
      = RunResult.fatal ("x").data false emptyReport
          [(pomPath ("r").data, FileData.text []),
           (artifactPath ("r").data, FileData.text [])] := by
  constructor
  · exact (C7_amended_summary_not_on_config_failure ("x").data
      (Except.error ("x").data) (MigrationOptions.mk ("r").data false false false false)
      []).1 (by decide)
  · exact (C7_amended_summary_not_on_config_failure ("x").data
      (Except.error ("x").data) (MigrationOptions.mk ("r").data false false false false)
      [(pomPath ("r").data, FileData.text []),
       (artifactPath ("r").data, FileData.text [])]).2 (by decide)

/-- C5 (counterexample): the summary replacer keys the rewrite and the
backup on `contains`, not on the content having changed.  With the rule
`'a' -> 'a'`, the content is untouched by the replacement, yet the file is
rewritten and a `.bak` copy appears on disk. -/
theorem C5_counterexample :
    traverse_and_replace_summary [(("a").data, ("a").data)] false true
        [(("r/f.txt").data, FileData.text ("a").data)]
      = ([(("r/f.txt").data, FileData.text ("a").data),
          (("r/f.txt").data ++ bakSuffix, FileData.text ("a").data)],
         [mkRepDesc ("r/f.txt").data ("a").data ("a").data])
    ∧ replaceAll ("a").data ("a").data ("a").data = ("a").data := by
  constructor
  · decide
  · decide

/-- C5 (amended): a visited file is rewritten and backed up only when some
rule's `from` occurred during the sequential pass: if no rule's `from`
occurs in the content the pass reports nothing, and a file whose pass
fired no rule is left entirely alone (no rewrite, no backup); moreover for
a single rule whose `from` is nonempty and differs from its `to`, an
occurrence really does change the content. -/
theorem C5_amended_rewrite_only_on_occurrence
    (rules : List (Str × Str)) (p c : Str) (fs : FS)
    (dryRun backup : Bool) (f t : Str) :
    ((∀ r ∈ rules, occurs r.1 c = false) → applyRules p rules c = (c, [], false)) ∧
    (fsLookup fs p = some (FileData.text c) → (applyRules p rules c).2.2 = false →
      processFile rules dryRun backup p fs = (fs, [])) ∧
    (occurs f c = true → f ≠ [] → f ≠ t → (applyRules p [(f, t)] c).1 ≠ c) := by
  refine ⟨applyRules_no_occ p rules c, ?_, ?_⟩
  · intro h1 h2
    exact processFile_not_changed rules dryRun backup p fs c h1 h2
  · intro hocc hf hne
    simp only [applyRules, if_pos hocc]
    exact replaceAll_ne f t c hf hne hocc

/-- Witness for C5 at concrete contents. -/
theorem C5_witness :
    applyRules ("r/f.xml").data [(("x").data, ("y").data)] ("abc").data
      = (("abc").data, [], false)
    ∧ processFile [(("x").data, ("y").data)] false true ("r/f.xml").data
        [(("r/f.xml").data, FileData.text ("abc").data)]
      = ([(("r/f.xml").data, FileData.text ("abc").data)], [])
    ∧ (applyRules ("r/f.xml").data [(("a").data, ("b").data)] ("abc").data).1
        ≠ ("abc").data := by
  obtain ⟨h1, h2, h3⟩ := C5_amended_rewrite_only_on_occurrence
    [(("x").data, ("y").data)] ("r/f.xml").data ("abc").data
    [(("r/f.xml").data, FileData.text ("abc").data)] false true ("a").data ("b").data
  exact ⟨h1 (by decide), h2 (by decide) (by decide), h3 (by decide) (by decide) (by decide)⟩

/-- C10: with both `dry_run` and `backup` enabled, each of the three
summary updaters still creates the `.bak` copy of the original content
whenever it detects a change — the dry-run flag suppresses only the
content write (the file itself keeps its original content), not the
backup copy. -/
theorem C10_backup_created_under_dry_run
    (fsx : FS) (px runtime plugin munit cx : Str)
    (fsy : FS) (py minV ay : Str) (javas : List Str) (j : JValue)
    (fsz : FS) (pz cz : Str) (rules : List (Str × Str)) :
    (fsLookup fsx px = some (FileData.text cx) →
      (updatePomContent runtime plugin munit cx).2.2 = true →
      update_pom_xml_summary fsx px runtime plugin munit true true
        = Except.ok (fsWrite fsx (px ++ bakSuffix) (FileData.text cx), true,
            (updatePomContent runtime plugin munit cx).2.1)
      ∧ fsLookup (fsWrite fsx (px ++ bakSuffix) (FileData.text cx)) px
          = some (FileData.text cx)
      ∧ fsLookup (fsWrite fsx (px ++ bakSuffix) (FileData.text cx)) (px ++ bakSuffix)
          = some (FileData.text cx)) ∧
    (fsLookup fsy py = some (FileData.text ay) →
      parseJson ay = some j →
      (updateArtifactContent j minV javas).2.2 = true →
      update_mule_artifact_json_summary fsy py minV javas true true
        = Except.ok (fsWrite fsy (py ++ bakSuffix) (FileData.text ay), true,
            (updateArtifactContent j minV javas).2.1)
      ∧ fsLookup (fsWrite fsy (py ++ bakSuffix) (FileData.text ay)) py
          = some (FileData.text ay)
      ∧ fsLookup (fsWrite fsy (py ++ bakSuffix) (FileData.text ay)) (py ++ bakSuffix)
          = some (FileData.text ay)) ∧
    (extOf pz ∈ allowedExts →
      fsLookup fsz pz = some (FileData.text cz) →
      (applyRules pz rules cz).2.2 = true →
      processFile rules true true pz fsz
        = (fsWrite fsz (pz ++ bakSuffix) (FileData.text cz), (applyRules pz rules cz).2.1)
      ∧ fsLookup (fsWrite fsz (pz ++ bakSuffix) (FileData.text cz)) pz
          = some (FileData.text cz)
      ∧ fsLookup (fsWrite fsz (pz ++ bakSuffix) (FileData.text cz)) (pz ++ bakSuffix)
          = some (FileData.text cz)) := by
  refine ⟨?_, ?_, ?_⟩
  · intro hl hch
    refine ⟨?_, ?_, ?_⟩
    · simp only [update_pom_xml_summary, hl, hch, if_true, fsCopy]
    · exact (fsLookup_fsWrite_ne fsx (px ++ bakSuffix) px (FileData.text cx)
        (self_ne_append_bak px)).trans hl
    · exact fsLookup_fsWrite_eq fsx (px ++ bakSuffix) (FileData.text cx)
  · intro hl hp hch
    refine ⟨?_, ?_, ?_⟩
    · simp only [update_mule_artifact_json_summary, hl, hp, hch, if_true, fsCopy]
    · exact (fsLookup_fsWrite_ne fsy (py ++ bakSuffix) py (FileData.text ay)
        (self_ne_append_bak py)).trans hl
    · exact fsLookup_fsWrite_eq fsy (py ++ bakSuffix) (FileData.text ay)
  · intro he hl hch
    refine ⟨?_, ?_, ?_⟩
    · simp only [processFile, if_pos he, hl, hch, if_true, fsCopy]
    · exact (fsLookup_fsWrite_ne fsz (pz ++ bakSuffix) pz (FileData.text cz)
        (self_ne_append_bak pz)).trans hl
    · exact fsLookup_fsWrite_eq fsz (pz ++ bakSuffix) (FileData.text cz)

/-- Witness for C10 at concrete files, one per updater. -/
theorem C10_witness :
    update_pom_xml_summary
        [(("r/pom.xml").data, FileData.text ("<mule.version>1</mule.version>").data)]
        ("r/pom.xml").data ("2").data ("p").data ("m").data true true
      = Except.ok (fsWrite
          [(("r/pom.xml").data, FileData.text ("<mule.version>1</mule.version>").data)]
          (("r/pom.xml").data ++ bakSuffix)
          (FileData.text ("<mule.version>1</mule.version>").data), true,
          (updatePomContent ("2").data ("p").data ("m").data
            ("<mule.version>1</mule.version>").data).2.1)
    ∧ update_mule_artifact_json_summary
        [(("r/mule-artifact.json").data,
          FileData.text ("\x7b\"minMuleVersion\": \"1\"\x7d").data)]
        ("r/mule-artifact.json").data ("2").data [] true true
      = Except.ok (fsWrite
          [(("r/mule-artifact.json").data,
            FileData.text ("\x7b\"minMuleVersion\": \"1\"\x7d").data)]
          (("r/mule-artifact.json").data ++ bakSuffix)
          (FileData.text ("\x7b\"minMuleVersion\": \"1\"\x7d").data), true,
          (updateArtifactContent
            (JValue.jobj [(minKey, JValue.jstr ("1").data)]) ("2").data []).2.1)
    ∧ processFile [(("a").data, ("b").data)] true true ("r/a.txt").data
        [(("r/a.txt").data, FileData.text ("ab").data)]
      = (fsWrite [(("r/a.txt").data, FileData.text ("ab").data)]
          (("r/a.txt").data ++ bakSuffix) (FileData.text ("ab").data),
         (applyRules ("r/a.txt").data [(("a").data, ("b").data)] ("ab").data).2.1) := by
  obtain ⟨h1, h2, h3⟩ := C10_backup_created_under_dry_run
    [(("r/pom.xml").data, FileData.text ("<mule.version>1</mule.version>").data)]
    ("r/pom.xml").data ("2").data ("p").data ("m").data
    ("<mule.version>1</mule.version>").data
    [(("r/mule-artifact.json").data,
      FileData.text ("\x7b\"minMuleVersion\": \"1\"\x7d").data)]
    ("r/mule-artifact.json").data ("2").data
    ("\x7b\"minMuleVersion\": \"1\"\x7d").data []
    (JValue.jobj [(minKey, JValue.jstr ("1").data)])
    [(("r/a.txt").data, FileData.text ("ab").data)]
    ("r/a.txt").data ("ab").data [(("a").data, ("b").data)]
  exact ⟨(h1 (by decide) (by decide)).1,
         (h2 (by decide) (by rfl) (by decide)).1,
         (h3 (by decide) (by decide) (by decide)).1⟩

theorem update_pom_xml_summary_of_text (fs : FS) (path runtime plugin munit : Str)
    (dryRun backup : Bool) (xml : Str)
    (hl : fsLookup fs path = some (FileData.text xml)) :
    ∃ fs2 ch pr, update_pom_xml_summary fs path runtime plugin munit dryRun backup
        = Except.ok (fs2, ch, pr)
      ∧ (∀ q, q ≠ path → q ≠ path ++ bakSuffix → fsLookup fs2 q = fsLookup fs q) := by
  simp only [update_pom_xml_summary, hl]
  by_cases hch : (updatePomContent runtime plugin munit xml).2.2 = true
  · rw [if_pos hch]
    refine ⟨_, _, _, rfl, ?_⟩
    intro q hq1 hq2
    have hb : fsLookup (if backup = true then fsCopy fs path (path ++ bakSuffix) else fs) q
        = fsLookup fs q := by
      cases backup with
      | false => simp
      | true =>
        simp only [if_true, fsCopy, hl]
        exact fsLookup_fsWrite_ne fs (path ++ bakSuffix) q _ hq2
    cases dryRun with
    | false =>
      simp only [Bool.false_eq_true, if_false]
      rw [fsLookup_fsWrite_ne _ path q _ hq1]
      exact hb
    | true => simpa using hb
  · rw [if_neg hch]
    exact ⟨fs, false, _, rfl, fun q _ _ => rfl⟩

theorem artifactPath_ne_pomPath (root : Str) : artifactPath root ≠ pomPath root := by
  intro h
  have := congrArg List.length h
  simp [pomPath, artifactPath] at this

theorem artifactPath_ne_pomPath_bak (root : Str) :
    artifactPath root ≠ pomPath root ++ bakSuffix := by
  intro h
  have := congrArg List.length h
  simp [pomPath, artifactPath, bakSuffix] at this

/-- C8 (counterexample): both descriptors exist, the pom is already up to
date, but the artifact file holds unparsable JSON.  The claim says such a
condition is returned to the Orchestrator as a structured outcome; instead
the `expect` in `update_mule_artifact_json_summary` panics, aborting the
process before the Orchestrator can classify anything (and before any
summary). -/
theorem C8_counterexample :
    run_migration
        (Except.ok (MigrationConfig.mk ("2").data ("p").data ("m").data ("x").data [] []))
        (MigrationOptions.mk ("r").data false false false false)
        [(pomPath ("r").data, FileData.text ("<mule.version>2</mule.version>").data),
         (artifactPath ("r").data, FileData.text ("not json").data)]
      = RunResult.panic ("Invalid JSON").data
          [(pomPath ("r").data, FileData.text ("<mule.version>2</mule.version>").data),
           (artifactPath ("r").data, FileData.text ("not json").data)] := by
  decide

/-- C8 (amended): failures inside the Property Updaters terminate the
process directly — an unparsable artifact descriptor, or an unreadable
pom, panics out of `run_migration` — while the Bulk Replacer's summary
variant swallows per-file read failures silently (the file is skipped and
no outcome reaches the Orchestrator); the Orchestrator classifies only the
missing-descriptor and configuration-load conditions. -/
theorem C8_amended_updaters_panic_replacer_skips
    (cfg : MigrationConfig) (opts : MigrationOptions) (fs : FS) (p a q : Str)
    (rules : List (Str × Str)) (dryRun backup : Bool) :
    (opts.update_maven_deps = false →
      fsLookup fs (pomPath opts.project_root) = some (FileData.text p) →
      fsLookup fs (artifactPath opts.project_root) = some (FileData.text a) →
      parseJson a = none →
      ∃ fs2, run_migration (Except.ok cfg) opts fs
        = RunResult.panic ("Invalid JSON").data fs2) ∧
    (opts.update_maven_deps = false →
      fsLookup fs (pomPath opts.project_root) = some FileData.binary →
      fsExists fs (artifactPath opts.project_root) = true →
      run_migration (Except.ok cfg) opts fs
        = RunResult.panic ("Failed to read pom.xml").data fs) ∧
    (fsLookup fs q = some FileData.binary →
      processFile rules dryRun backup q fs = (fs, [])) := by
  refine ⟨?_, ?_, ?_⟩
  · intro hm hp ha hj
    have hproj : is_mule_project fs opts.project_root = true := by
      simp [is_mule_project, fsExists, hp, ha]
    obtain ⟨fs2, ch, pr, hok, hother⟩ := update_pom_xml_summary_of_text fs
      (pomPath opts.project_root) cfg.app_runtime_version
      cfg.mule_maven_plugin_version cfg.munit_version opts.dry_run opts.backup p hp
    have ha2 : fsLookup fs2 (artifactPath opts.project_root)
        = some (FileData.text a) := by
      rw [hother (artifactPath opts.project_root)
        (artifactPath_ne_pomPath opts.project_root)
        (artifactPath_ne_pomPath_bak opts.project_root)]
      exact ha
    refine ⟨fs2, ?_⟩
    have hps : pomStage cfg opts fs = Except.ok (fs2, if ch = true then
        [pomPath opts.project_root] else [], if ch = true then pr else [],
        []) := by
      simp only [pomStage, fsExists, hp, Option.isSome_some, if_true, hok]
      cases ch with
      | true => simp
      | false => simp
    have hart : artifactStage cfg opts fs2 = Except.error ("Invalid JSON").data := by
      simp only [artifactStage, fsExists, ha2, Option.isSome_some, if_true,
        update_mule_artifact_json_summary, hj]
    simp only [run_migration, hproj, if_true, hm, Bool.false_eq_true, if_false,
      hps, hart]
  · intro hm hp ha
    have ha1 : (fsLookup fs (artifactPath opts.project_root)).isSome = true := ha
    have hproj : is_mule_project fs opts.project_root = true := by
      simp [is_mule_project, fsExists, hp, ha1]
    have hps : pomStage cfg opts fs = Except.error ("Failed to read pom.xml").data := by
      simp only [pomStage, fsExists, hp, Option.isSome_some, if_true,
        update_pom_xml_summary]
    simp only [run_migration, hproj, if_true, hm, Bool.false_eq_true, if_false, hps]
  · intro hq
    exact processFile_binary rules dryRun backup q fs hq

/-- Witness for C8 at concrete states. -/
theorem C8_witness :
    (∃ fs2, run_migration
        (Except.ok (MigrationConfig.mk ("2").data ("p").data ("m").data ("x").data [] []))
        (MigrationOptions.mk ("r").data true false false false)
        [(pomPath ("r").data, FileData.text ("<a>1</a>").data),
         (artifactPath ("r").data, FileData.text ("]").data)]
      = RunResult.panic ("Invalid JSON").data fs2)
    ∧ run_migration
        (Except.ok (MigrationConfig.mk ("2").data ("p").data ("m").data ("x").data [] []))
        (MigrationOptions.mk ("r").data false false false false)
        [(pomPath ("r").data, FileData.binary),
         (artifactPath ("r").data, FileData.text [])]
      = RunResult.panic ("Failed to read pom.xml").data
          [(pomPath ("r").data, FileData.binary),
           (artifactPath ("r").data, FileData.text [])]
    ∧ processFile [] false false ("r/b.xml").data
        [(("r/b.xml").data, FileData.binary)]
      = ([(("r/b.xml").data, FileData.binary)], []) := by
  refine ⟨?_, ?_, ?_⟩
  · exact (C8_amended_updaters_panic_replacer_skips
      (MigrationConfig.mk ("2").data ("p").data ("m").data ("x").data [] [])
      (MigrationOptions.mk ("r").data true false false false)
      [(pomPath ("r").data, FileData.text ("<a>1</a>").data),
       (artifactPath ("r").data, FileData.text ("]").data)]
      ("<a>1</a>").data ("]").data [] [] false false).1
      (by decide) (by decide) (by decide) (by rfl)
  · exact (C8_amended_updaters_panic_replacer_skips
      (MigrationConfig.mk ("2").data ("p").data ("m").data ("x").data [] [])
      (MigrationOptions.mk ("r").data false false false false)
      [(pomPath ("r").data, FileData.binary),
       (artifactPath ("r").data, FileData.text [])]
      [] [] [] [] false false).2.1
      (by decide) (by decide) (by decide)
  · exact (C8_amended_updaters_panic_replacer_skips
      (MigrationConfig.mk ("2").data ("p").data ("m").data ("x").data [] [])
      (MigrationOptions.mk ("r").data false false false false)
      [(("r/b.xml").data, FileData.binary)]
      [] [] ("r/b.xml").data [] false false).2.2
      (by decide)

theorem objGet_objSet_ne : ∀ (l : List (Str × JValue)) (k k1 : Str) (v : JValue),
    k1 ≠ k → objGet (objSet l k v) k1 = objGet l k1 := by
  intro l
  induction l with
  | nil => intro k k1 v _; rfl
  | cons e rest ih =>
    intro k k1 v h
    cases e with
    | mk a b =>
      by_cases ha : a = k
      · subst ha
        simp only [objSet, if_pos rfl, objGet]
        rw [if_neg (Ne.symm h), if_neg (Ne.symm h)]
      · simp only [objSet, if_neg ha, objGet]
        by_cases ha1 : a = k1
        · rw [if_pos ha1, if_pos ha1]
        · rw [if_neg ha1, if_neg ha1]
          exact ih k k1 v h

theorem objGet_objSet_eq : ∀ (l : List (Str × JValue)) (k : Str) (v w : JValue),
    objGet l k = some w → objGet (objSet l k v) k = some v := by
  intro l
  induction l with
  | nil => intro k v w h; simp [objGet] at h
  | cons e rest ih =>
    intro k v w h
    cases e with
    | mk a b =>
      by_cases ha : a = k
      · subst ha
        simp [objSet, objGet]
      · simp only [objSet, if_neg ha, objGet, if_neg ha] at h ⊢
        exact ih k v w h

theorem minKey_ne_rpKey : minKey ≠ rpKey := by decide

theorem rpKey_ne_minKey : rpKey ≠ minKey := by decide

/-- C6: the JSON-variant updater compares each addressed field's current
value to the desired one and updates it in place only when they differ,
emitting one field-path description per updated field (`minMuleVersion:
'<old>' -> '<new>'` and `requiredProduct.javaSpecificationVersions`), with
the change flag set exactly when some description was emitted; an absent
field — no `minMuleVersion` key, or no
`requiredProduct.javaSpecificationVersions` path, or a non-object document
— changes nothing and raises no error, and all keys other than the two
addressed ones are untouched. -/
theorem C6_artifact_field_updates (j : JValue) (l : List (Str × JValue))
    (minV : Str) (javas : List Str) :
    (isObj j = false → updateArtifactContent j minV javas = (j, [], false)) ∧
    (∃ l2,
      updateArtifactContent (JValue.jobj l) minV javas
        = (JValue.jobj l2,
           (match objGet l minKey with
            | some v => if jEqStr v minV then [] else [minMuleDesc v minV]
            | none => []) ++
           (match jsvPathGet l with
            | some jv => if jbeq jv (JValue.jarr (javas.map JValue.jstr)) then []
                         else [jsvDesc]
            | none => []),
           !((match objGet l minKey with
              | some v => if jEqStr v minV then [] else [minMuleDesc v minV]
              | none => ([] : List Str)) ++
             (match jsvPathGet l with
              | some jv => if jbeq jv (JValue.jarr (javas.map JValue.jstr)) then []
                           else [jsvDesc]
              | none => [])).isEmpty)
      ∧ objGet l2 minKey
          = (match objGet l minKey with
             | some v => if jEqStr v minV then some v else some (JValue.jstr minV)
             | none => none)
      ∧ jsvPathGet l2
          = (match jsvPathGet l with
             | some jv => if jbeq jv (JValue.jarr (javas.map JValue.jstr)) then some jv
                          else some (JValue.jarr (javas.map JValue.jstr))
             | none => none)
      ∧ (∀ k, k ≠ minKey → k ≠ rpKey → objGet l2 k = objGet l k)) := by
  constructor
  · intro h
    cases j with
    | jobj _ => simp [isObj] at h
    | jnull => rfl
    | jbool b => rfl
    | jnum n => rfl
    | jstr s => rfl
    | jarr xs => rfl
  · cases hmin : objGet l minKey with
    | none =>
      cases hrp : objGet l rpKey with
      | none =>
        refine ⟨l, ?_, ?_, ?_, fun k _ _ => rfl⟩
        · simp [updateArtifactContent, hmin, hrp, jsvPathGet]
        · simp [hmin]
        · simp [jsvPathGet, hrp]
      | some w =>
        cases w with
        | jobj rl =>
          cases hjv : objGet rl jsvKey with
          | none =>
            refine ⟨l, ?_, ?_, ?_, fun k _ _ => rfl⟩
            · simp [updateArtifactContent, hmin, hrp, hjv, jsvPathGet]
            · simp [hmin]
            · simp [jsvPathGet, hrp, hjv]
          | some jv =>
            by_cases hb : jbeq jv (JValue.jarr (javas.map JValue.jstr)) = true
            · refine ⟨l, ?_, ?_, ?_, fun k _ _ => rfl⟩
              · simp [updateArtifactContent, hmin, hrp, hjv, hb, jsvPathGet]
              · simp [hmin]
              · simp [jsvPathGet, hrp, hjv, hb]
            · rw [Bool.not_eq_true] at hb
              refine ⟨objSet l rpKey (JValue.jobj (objSet rl jsvKey
                  (JValue.jarr (javas.map JValue.jstr)))), ?_, ?_, ?_, ?_⟩
              · simp [updateArtifactContent, hmin, hrp, hjv, hb, jsvPathGet]
              · rw [objGet_objSet_ne l rpKey minKey _ minKey_ne_rpKey]
                simp [hmin]
              · have h8 := objGet_objSet_eq l rpKey
                  (JValue.jobj (objSet rl jsvKey (JValue.jarr (javas.map JValue.jstr))))
                  (JValue.jobj rl) hrp
                have h9 := objGet_objSet_eq rl jsvKey
                  (JValue.jarr (javas.map JValue.jstr)) jv hjv
                simp [jsvPathGet, hrp, hjv, hb, h8, h9]
              · intro k hk1 hk2
                exact objGet_objSet_ne l rpKey k _ hk2
        | jnull =>
          refine ⟨l, ?_, ?_, ?_, fun k _ _ => rfl⟩
          · simp [updateArtifactContent, hmin, hrp, jsvPathGet]
          · simp [hmin]
          · simp [jsvPathGet, hrp]
        | jbool b =>
          refine ⟨l, ?_, ?_, ?_, fun k _ _ => rfl⟩
          · simp [updateArtifactContent, hmin, hrp, jsvPathGet]
          · simp [hmin]
          · simp [jsvPathGet, hrp]
        | jnum n =>
          refine ⟨l, ?_, ?_, ?_, fun k _ _ => rfl⟩
          · simp [updateArtifactContent, hmin, hrp, jsvPathGet]
          · simp [hmin]
          · simp [jsvPathGet, hrp]
        | jstr s =>
          refine ⟨l, ?_, ?_, ?_, fun k _ _ => rfl⟩
          · simp [updateArtifactContent, hmin, hrp, jsvPathGet]
          · simp [hmin]
          · simp [jsvPathGet, hrp]
        | jarr xs =>
          refine ⟨l, ?_, ?_, ?_, fun k _ _ => rfl⟩
          · simp [updateArtifactContent, hmin, hrp, jsvPathGet]
          · simp [hmin]
          · simp [jsvPathGet, hrp]
    | some v =>
      by_cases hveq : jEqStr v minV = true
      · cases hrp : objGet l rpKey with
        | none =>
          refine ⟨l, ?_, ?_, ?_, fun k _ _ => rfl⟩
          · simp [updateArtifactContent, hmin, hveq, hrp, jsvPathGet]
          · simp [hmin, hveq]
          · simp [jsvPathGet, hrp]
        | some w =>
          cases w with
          | jobj rl =>
            cases hjv : objGet rl jsvKey with
            | none =>
              refine ⟨l, ?_, ?_, ?_, fun k _ _ => rfl⟩
              · simp [updateArtifactContent, hmin, hveq, hrp, hjv, jsvPathGet]
              · simp [hmin, hveq]
              · simp [jsvPathGet, hrp, hjv]
            | some jv =>
              by_cases hb : jbeq jv (JValue.jarr (javas.map JValue.jstr)) = true
              · refine ⟨l, ?_, ?_, ?_, fun k _ _ => rfl⟩
                · simp [updateArtifactContent, hmin, hveq, hrp, hjv, hb, jsvPathGet]
                · simp [hmin, hveq]
                · simp [jsvPathGet, hrp, hjv, hb]
              · rw [Bool.not_eq_true] at hb
                refine ⟨objSet l rpKey (JValue.jobj (objSet rl jsvKey
                    (JValue.jarr (javas.map JValue.jstr)))), ?_, ?_, ?_, ?_⟩
                · simp [updateArtifactContent, hmin, hveq, hrp, hjv, hb, jsvPathGet]
                · rw [objGet_objSet_ne l rpKey minKey _ minKey_ne_rpKey]
                  simp [hmin, hveq]
                · have h8 := objGet_objSet_eq l rpKey
                    (JValue.jobj (objSet rl jsvKey (JValue.jarr (javas.map JValue.jstr))))
                    (JValue.jobj rl) hrp
                  have h9 := objGet_objSet_eq rl jsvKey
                    (JValue.jarr (javas.map JValue.jstr)) jv hjv
                  simp [jsvPathGet, hrp, hjv, hb, h8, h9]
                · intro k hk1 hk2
                  exact objGet_objSet_ne l rpKey k _ hk2
          | jnull =>
            refine ⟨l, ?_, ?_, ?_, fun k _ _ => rfl⟩
            · simp [updateArtifactContent, hmin, hveq, hrp, jsvPathGet]
            · simp [hmin, hveq]
            · simp [jsvPathGet, hrp]
          | jbool b =>
            refine ⟨l, ?_, ?_, ?_, fun k _ _ => rfl⟩
            · simp [updateArtifactContent, hmin, hveq, hrp, jsvPathGet]
            · simp [hmin, hveq]
            · simp [jsvPathGet, hrp]
          | jnum n =>
            refine ⟨l, ?_, ?_, ?_, fun k _ _ => rfl⟩
            · simp [updateArtifactContent, hmin, hveq, hrp, jsvPathGet]
            · simp [hmin, hveq]
            · simp [jsvPathGet, hrp]
          | jstr s =>
            refine ⟨l, ?_, ?_, ?_, fun k _ _ => rfl⟩
            · simp [updateArtifactContent, hmin, hveq, hrp, jsvPathGet]
            · simp [hmin, hveq]
            · simp [jsvPathGet, hrp]
          | jarr xs =>
            refine ⟨l, ?_, ?_, ?_, fun k _ _ => rfl⟩
            · simp [updateArtifactContent, hmin, hveq, hrp, jsvPathGet]
            · simp [hmin, hveq]
            · simp [jsvPathGet, hrp]
      · rw [Bool.not_eq_true] at hveq
        have hl1 : objGet (objSet l minKey (JValue.jstr minV)) rpKey = objGet l rpKey :=
          objGet_objSet_ne l minKey rpKey _ rpKey_ne_minKey
        cases hrp : objGet l rpKey with
        | none =>
          refine ⟨objSet l minKey (JValue.jstr minV), ?_, ?_, ?_, ?_⟩
          · simp [updateArtifactContent, hmin, hveq, hl1, hrp, jsvPathGet]
          · rw [objGet_objSet_eq l minKey _ v hmin]
            simp [hmin, hveq]
          · simp only [jsvPathGet, hl1, hrp]
          · intro k hk1 hk2
            exact objGet_objSet_ne l minKey k _ hk1
        | some w =>
          cases w with
          | jobj rl =>
            cases hjv : objGet rl jsvKey with
            | none =>
              refine ⟨objSet l minKey (JValue.jstr minV), ?_, ?_, ?_, ?_⟩
              · simp [updateArtifactContent, hmin, hveq, hl1, hrp, hjv, jsvPathGet]
              · rw [objGet_objSet_eq l minKey _ v hmin]
                simp [hmin, hveq]
              · simp only [jsvPathGet, hl1, hrp, hjv]
              · intro k hk1 hk2
                exact objGet_objSet_ne l minKey k _ hk1
            | some jv =>
              by_cases hb : jbeq jv (JValue.jarr (javas.map JValue.jstr)) = true
              · refine ⟨objSet l minKey (JValue.jstr minV), ?_, ?_, ?_, ?_⟩
                · simp [updateArtifactContent, hmin, hveq, hl1, hrp, hjv, hb, jsvPathGet]
                · rw [objGet_objSet_eq l minKey _ v hmin]
                  simp [hmin, hveq]
                · simp only [jsvPathGet, hl1, hrp, hjv, hb]
                  simp [hb]
                · intro k hk1 hk2
                  exact objGet_objSet_ne l minKey k _ hk1
              · rw [Bool.not_eq_true] at hb
                refine ⟨objSet (objSet l minKey (JValue.jstr minV)) rpKey
                    (JValue.jobj (objSet rl jsvKey
                      (JValue.jarr (javas.map JValue.jstr)))), ?_, ?_, ?_, ?_⟩
                · simp [updateArtifactContent, hmin, hveq, hl1, hrp, hjv, hb, jsvPathGet]
                · rw [objGet_objSet_ne _ rpKey minKey _ minKey_ne_rpKey]
                  rw [objGet_objSet_eq l minKey _ v hmin]
                  simp [hmin, hveq]
                · have h8 := objGet_objSet_eq (objSet l minKey (JValue.jstr minV)) rpKey
                    (JValue.jobj (objSet rl jsvKey (JValue.jarr (javas.map JValue.jstr))))
                    (JValue.jobj rl) (hl1.trans hrp)
                  have h9 := objGet_objSet_eq rl jsvKey
                    (JValue.jarr (javas.map JValue.jstr)) jv hjv
                  simp [jsvPathGet, hrp, hjv, hb, h8, h9]
                · intro k hk1 hk2
                  rw [objGet_objSet_ne _ rpKey k _ hk2]
                  exact objGet_objSet_ne l minKey k _ hk1
          | jnull =>
            refine ⟨objSet l minKey (JValue.jstr minV), ?_, ?_, ?_, ?_⟩
            · simp [updateArtifactContent, hmin, hveq, hl1, hrp, jsvPathGet]
            · rw [objGet_objSet_eq l minKey _ v hmin]
              simp [hmin, hveq]
            · simp only [jsvPathGet, hl1, hrp]
            · intro k hk1 hk2
              exact objGet_objSet_ne l minKey k _ hk1
          | jbool b =>
            refine ⟨objSet l minKey (JValue.jstr minV), ?_, ?_, ?_, ?_⟩
            · simp [updateArtifactContent, hmin, hveq, hl1, hrp, jsvPathGet]
            · rw [objGet_objSet_eq l minKey _ v hmin]
              simp [hmin, hveq]
            · simp only [jsvPathGet, hl1, hrp]
            · intro k hk1 hk2
              exact objGet_objSet_ne l minKey k _ hk1
          | jnum n =>
            refine ⟨objSet l minKey (JValue.jstr minV), ?_, ?_, ?_, ?_⟩
            · simp [updateArtifactContent, hmin, hveq, hl1, hrp, jsvPathGet]
            · rw [objGet_objSet_eq l minKey _ v hmin]
              simp [hmin, hveq]
            · simp only [jsvPathGet, hl1, hrp]
            · intro k hk1 hk2
              exact objGet_objSet_ne l minKey k _ hk1
          | jstr s =>
            refine ⟨objSet l minKey (JValue.jstr minV), ?_, ?_, ?_, ?_⟩
            · simp [updateArtifactContent, hmin, hveq, hl1, hrp, jsvPathGet]
            · rw [objGet_objSet_eq l minKey _ v hmin]
              simp [hmin, hveq]
            · simp only [jsvPathGet, hl1, hrp]
            · intro k hk1 hk2
              exact objGet_objSet_ne l minKey k _ hk1
          | jarr xs =>
            refine ⟨objSet l minKey (JValue.jstr minV), ?_, ?_, ?_, ?_⟩
            · simp [updateArtifactContent, hmin, hveq, hl1, hrp, jsvPathGet]
            · rw [objGet_objSet_eq l minKey _ v hmin]
              simp [hmin, hveq]
            · simp only [jsvPathGet, hl1, hrp]
            · intro k hk1 hk2
              exact objGet_objSet_ne l minKey k _ hk1

/-- Witness for C6 at the repository's own test artifact. -/
theorem C6_witness :
    updateArtifactContent JValue.jnull ("4.9.0").data [("17").data]
      = (JValue.jnull, [], false)
    ∧ (∃ l2,
        updateArtifactContent
            (JValue.jobj [(minKey, JValue.jstr ("4.3.0").data),
              (rpKey, JValue.jobj [(jsvKey, JValue.jarr [JValue.jstr ("8").data])])])
            ("4.9.0").data [("17").data]
          = (JValue.jobj l2,
             [minMuleDesc (JValue.jstr ("4.3.0").data) ("4.9.0").data, jsvDesc], true)
        ∧ objGet l2 minKey = some (JValue.jstr ("4.9.0").data)
        ∧ jsvPathGet l2 = some (JValue.jarr [JValue.jstr ("17").data])
        ∧ objGet l2 ("other").data = none) := by
  obtain ⟨ha, l2, h1, h2, h3, h4⟩ := C6_artifact_field_updates JValue.jnull
      [(minKey, JValue.jstr ("4.3.0").data),
       (rpKey, JValue.jobj [(jsvKey, JValue.jarr [JValue.jstr ("8").data])])]
      ("4.9.0").data [("17").data]
  exact ⟨ha (by decide), l2, h1, h2, h3, h4 ("other").data (by decide) (by decide)⟩

theorem processFile_dry_nobak_fs (rules : List (Str × Str)) (p : Str) (fs : FS) :
    (processFile rules true false p fs).1 = fs := by
  by_cases he : extOf p ∈ allowedExts
  · simp only [processFile, if_pos he]
    cases hl : fsLookup fs p with
    | none => rfl
    | some d =>
      cases d with
      | binary => rfl
      | text c =>
        by_cases hch : (applyRules p rules c).2.2 = true
        · simp [hch]
        · rw [Bool.not_eq_true] at hch
          simp [hch]
  · simp only [processFile, if_neg he]

theorem traverseGo_dry_nobak_fs (rules : List (Str × Str)) :
    ∀ (paths : List Str) (fs : FS), (traverseGo rules true false paths fs).1 = fs := by
  intro paths
  induction paths with
  | nil => intro fs; rfl
  | cons p ps ih =>
    intro fs
    simp only [traverseGo]
    rw [ih, processFile_dry_nobak_fs]

theorem takeWhile_append_all (f : Char → Bool) :
    ∀ (a b : Str), (∀ c ∈ a, f c = true) → (a ++ b).takeWhile f = a ++ b.takeWhile f := by
  intro a
  induction a with
  | nil => intro b _; rfl
  | cons c cs ih =>
    intro b h
    have hc : f c = true := h c (List.mem_cons_self _ _)
    simp only [List.cons_append, List.takeWhile_cons, hc, if_true]
    rw [ih b (fun d hd => h d (List.mem_cons_of_mem _ hd))]

theorem extOf_append_bak (p : Str) :
    extOf (p ++ bakSuffix) = [] ∨ extOf (p ++ bakSuffix) = ("bak").data := by
  have h1 : (p ++ bakSuffix).reverse
      = ('k' :: 'a' :: 'b' :: '.' :: []) ++ p.reverse := by
    rw [List.reverse_append]
    rfl
  have h2 : fileNameOf (p ++ bakSuffix)
      = ('k' :: 'a' :: 'b' :: '.' ::
          p.reverse.takeWhile (fun c => decide (c ≠ '/'))).reverse := by
    simp only [fileNameOf, h1]
    have h2a := takeWhile_append_all (fun c => decide (c ≠ '/'))
      ('k' :: 'a' :: 'b' :: '.' :: []) p.reverse (by decide)
    simp only [h2a]
    simp
  generalize hw : p.reverse.takeWhile (fun c => decide (c ≠ '/')) = w at h2
  have h3 : ('k' :: 'a' :: 'b' :: '.' :: w).takeWhile (fun c => decide (c ≠ '.'))
      = ['k', 'a', 'b'] := by
    simp [List.takeWhile]
  simp only [extOf, h2, List.reverse_reverse, h3]
  simp only [List.length_reverse, List.length_cons]
  by_cases h0 : w.length = 0
  · rw [if_neg (by simp), if_pos (by simp [h0])]
    exact Or.inl rfl
  · rw [if_neg (by simp), if_neg (by simp [h0])]
    exact Or.inr (by decide)

theorem extOf_bak_not_allowed (p : Str) : extOf (p ++ bakSuffix) ∉ allowedExts := by
  cases extOf_append_bak p with
  | inl h => rw [h]; decide
  | inr h => rw [h]; decide

theorem processFile_lookup_other (rules : List (Str × Str)) (dryRun backup : Bool)
    (p : Str) (fs : FS) (q : Str) (hq1 : q ≠ p) (hq2 : q ≠ p ++ bakSuffix) :
    fsLookup (processFile rules dryRun backup p fs).1 q = fsLookup fs q := by
  by_cases he : extOf p ∈ allowedExts
  · simp only [processFile, if_pos he]
    cases hl : fsLookup fs p with
    | none => rfl
    | some d =>
      cases d with
      | binary => rfl
      | text c =>
        by_cases hch : (applyRules p rules c).2.2 = true
        · simp only [hch, if_true]
          have hb : fsLookup (if backup = true then fsCopy fs p (p ++ bakSuffix) else fs) q
              = fsLookup fs q := by
            cases backup with
            | false => simp
            | true =>
              simp only [if_true, fsCopy, hl]
              exact fsLookup_fsWrite_ne fs (p ++ bakSuffix) q _ hq2
          cases dryRun with
          | false =>
            simp only [Bool.false_eq_true, if_false]
            rw [fsLookup_fsWrite_ne _ p q _ hq1]
            exact hb
          | true => simpa using hb
        · rw [Bool.not_eq_true] at hch
          simp [hch]
  · simp only [processFile, if_neg he]

theorem processFile_summary_eq (rules : List (Str × Str)) (d1 b1 d2 b2 : Bool)
    (p : Str) (fs1 fs2 : FS) (h : fsLookup fs1 p = fsLookup fs2 p) :
    (processFile rules d1 b1 p fs1).2 = (processFile rules d2 b2 p fs2).2 := by
  by_cases he : extOf p ∈ allowedExts
  · simp only [processFile, if_pos he, h]
    cases hl : fsLookup fs2 p with
    | none => rfl
    | some d =>
      cases d with
      | binary => rfl
      | text c =>
        by_cases hch : (applyRules p rules c).2.2 = true
        · simp [hch]
        · rw [Bool.not_eq_true] at hch
          simp [hch]
  · simp only [processFile, if_neg he]

theorem traverseGo_summary_eq (rules : List (Str × Str)) (d1 b1 d2 b2 : Bool) :
    ∀ (paths : List Str) (fs1 fs2 : FS), paths.Nodup →
      (∀ p ∈ paths, extOf p ∈ allowedExts → fsLookup fs1 p = fsLookup fs2 p) →
      (traverseGo rules d1 b1 paths fs1).2 = (traverseGo rules d2 b2 paths fs2).2 := by
  intro paths
  induction paths with
  | nil => intro fs1 fs2 _ _; rfl
  | cons p ps ih =>
    intro fs1 fs2 hnd hagree
    have hnd2 := (List.nodup_cons.mp hnd).2
    have hpnotin := (List.nodup_cons.mp hnd).1
    have hhead : (processFile rules d1 b1 p fs1).2 = (processFile rules d2 b2 p fs2).2 := by
      by_cases he : extOf p ∈ allowedExts
      · exact processFile_summary_eq rules d1 b1 d2 b2 p fs1 fs2
          (hagree p (List.mem_cons_self _ _) he)
      · simp only [processFile, if_neg he]
    have htail : (traverseGo rules d1 b1 ps (processFile rules d1 b1 p fs1).1).2
        = (traverseGo rules d2 b2 ps (processFile rules d2 b2 p fs2).1).2 := by
      apply ih _ _ hnd2
      intro q hq hqe
      have hq1 : q ≠ p := fun h => hpnotin (h ▸ hq)
      have hq2 : q ≠ p ++ bakSuffix := by
        intro h
        exact extOf_bak_not_allowed p (h ▸ hqe)
      rw [processFile_lookup_other rules d1 b1 p fs1 q hq1 hq2,
          processFile_lookup_other rules d2 b2 p fs2 q hq1 hq2]
      exact hagree q (List.mem_cons_of_mem _ hq) hqe
    simp only [traverseGo]
    rw [hhead, htail]

theorem update_pom_text_nobak (fs : FS) (path runtime plugin munit : Str)
    (dryRun : Bool) (xml : Str)
    (hl : fsLookup fs path = some (FileData.text xml)) :
    update_pom_xml_summary fs path runtime plugin munit dryRun false
      = Except.ok
          ((if (updatePomContent runtime plugin munit xml).2.2 ∧ dryRun = false then
              fsWrite fs path (FileData.text (updatePomContent runtime plugin munit xml).1)
            else fs),
           (updatePomContent runtime plugin munit xml).2.2,
           (updatePomContent runtime plugin munit xml).2.1) := by
  simp only [update_pom_xml_summary, hl]
  by_cases hch : (updatePomContent runtime plugin munit xml).2.2 = true
  · cases dryRun with
    | true => simp [hch]
    | false => simp [hch]
  · rw [Bool.not_eq_true] at hch
    simp [hch]

theorem update_artifact_text_nobak (fs : FS) (path minV : Str) (javas : List Str)
    (dryRun : Bool) (a : Str) (j : JValue)
    (hl : fsLookup fs path = some (FileData.text a))
    (hp : parseJson a = some j) :
    update_mule_artifact_json_summary fs path minV javas dryRun false
      = Except.ok
          ((if (updateArtifactContent j minV javas).2.2 ∧ dryRun = false then
              fsWrite fs path (FileData.text (prettyJson (updateArtifactContent j minV javas).1))
            else fs),
           (updateArtifactContent j minV javas).2.2,
           (updateArtifactContent j minV javas).2.1) := by
  simp only [update_mule_artifact_json_summary, hl, hp]
  by_cases hch : (updateArtifactContent j minV javas).2.2 = true
  · cases dryRun with
    | true => simp [hch]
    | false => simp [hch]
  · rw [Bool.not_eq_true] at hch
    simp [hch]

theorem pomStage_text_nobak (cfg : MigrationConfig) (opts : MigrationOptions)
    (fs : FS) (xml : Str) (hbak : opts.backup = false)
    (hl : fsLookup fs (pomPath opts.project_root) = some (FileData.text xml)) :
    pomStage cfg opts fs
      = Except.ok
          ((if (updatePomContent cfg.app_runtime_version cfg.mule_maven_plugin_version
                cfg.munit_version xml).2.2 ∧ opts.dry_run = false then
              fsWrite fs (pomPath opts.project_root)
                (FileData.text (updatePomContent cfg.app_runtime_version
                  cfg.mule_maven_plugin_version cfg.munit_version xml).1)
            else fs),
           (if (updatePomContent cfg.app_runtime_version cfg.mule_maven_plugin_version
                cfg.munit_version xml).2.2 then [pomPath opts.project_root] else []),
           (if (updatePomContent cfg.app_runtime_version cfg.mule_maven_plugin_version
                cfg.munit_version xml).2.2 then (updatePomContent cfg.app_runtime_version
                cfg.mule_maven_plugin_version cfg.munit_version xml).2.1 else []),
           []) := by
  have hex : fsExists fs (pomPath opts.project_root) = true := by
    simp [fsExists, hl]
  simp only [pomStage, hex, if_true]
  rw [hbak, update_pom_text_nobak fs _ _ _ _ _ xml hl]
  by_cases hch : (updatePomContent cfg.app_runtime_version cfg.mule_maven_plugin_version
      cfg.munit_version xml).2.2 = true
  · simp [hch]
  · rw [Bool.not_eq_true] at hch
    simp [hch]

theorem artifactStage_text_nobak (cfg : MigrationConfig) (opts : MigrationOptions)
    (fs : FS) (a : Str) (j : JValue) (hbak : opts.backup = false)
    (hl : fsLookup fs (artifactPath opts.project_root) = some (FileData.text a))
    (hp : parseJson a = some j) :
    artifactStage cfg opts fs
      = Except.ok
          ((if (updateArtifactContent j cfg.min_mule_version
                cfg.java_specification_versions).2.2 ∧ opts.dry_run = false then
              fsWrite fs (artifactPath opts.project_root)
                (FileData.text (prettyJson (updateArtifactContent j cfg.min_mule_version
                  cfg.java_specification_versions).1))
            else fs),
           (if (updateArtifactContent j cfg.min_mule_version
                cfg.java_specification_versions).2.2 then [artifactPath opts.project_root]
            else []),
           (if (updateArtifactContent j cfg.min_mule_version
                cfg.java_specification_versions).2.2 then
              (updateArtifactContent j cfg.min_mule_version
                cfg.java_specification_versions).2.1 else []),
           []) := by
  have hex : fsExists fs (artifactPath opts.project_root) = true := by
    simp [fsExists, hl]
  simp only [artifactStage, hex, if_true]
  rw [hbak, update_artifact_text_nobak fs _ _ _ _ a j hl hp]
  by_cases hch : (updateArtifactContent j cfg.min_mule_version
      cfg.java_specification_versions).2.2 = true
  · simp [hch]
  · rw [Bool.not_eq_true] at hch
    simp [hch]

/-- C2 (counterexample): one initial state, one configuration.  Under
dry-run with backup enabled the disk changes (a `.bak` file appears), and
the dry-run replacement list (empty) differs from the non-dry-run one,
because the non-dry-run traversal reads the pom already rewritten by the
descriptor step and the rule `'2' -> '3'` matches the newly written
value. -/
theorem C2_counterexample :
    run_migration
        (Except.ok (MigrationConfig.mk ("2").data ("p").data ("m").data ("x").data []
          [(("2").data, ("3").data)]))
        (MigrationOptions.mk ("r").data true true false false)
        [(pomPath ("r").data, FileData.text ("<mule.version>1</mule.version>").data),
         (artifactPath ("r").data, FileData.text [lbrace, rbrace])]
      = RunResult.success
          (Report.mk [pomPath ("r").data]
            [mkPropDesc ("mule.version").data ("1").data ("2").data] [] [] [])
          [(pomPath ("r").data, FileData.text ("<mule.version>1</mule.version>").data),
           (artifactPath ("r").data, FileData.text [lbrace, rbrace]),
           (pomPath ("r").data ++ bakSuffix,
            FileData.text ("<mule.version>1</mule.version>").data)]
    ∧ [(pomPath ("r").data, FileData.text ("<mule.version>1</mule.version>").data),
       (artifactPath ("r").data, FileData.text [lbrace, rbrace]),
       (pomPath ("r").data ++ bakSuffix,
        FileData.text ("<mule.version>1</mule.version>").data)]
      ≠ [(pomPath ("r").data, FileData.text ("<mule.version>1</mule.version>").data),
         (artifactPath ("r").data, FileData.text [lbrace, rbrace])]
    ∧ run_migration
        (Except.ok (MigrationConfig.mk ("2").data ("p").data ("m").data ("x").data []
          [(("2").data, ("3").data)]))
        (MigrationOptions.mk ("r").data false true false false)
        [(pomPath ("r").data, FileData.text ("<mule.version>1</mule.version>").data),
         (artifactPath ("r").data, FileData.text [lbrace, rbrace])]
      = RunResult.success
          (Report.mk [pomPath ("r").data]
            [mkPropDesc ("mule.version").data ("1").data ("2").data] []
            [mkRepDesc (pomPath ("r").data) ("2").data ("3").data] [])
          [(pomPath ("r").data, FileData.text ("<mule.version>3</mule.version>").data),
           (artifactPath ("r").data, FileData.text [lbrace, rbrace]),
           (pomPath ("r").data ++ bakSuffix,
            FileData.text ("<mule.version>2</mule.version>").data)]
    ∧ [mkRepDesc (pomPath ("r").data) ("2").data ("3").data] ≠ ([] : List Str) := by
  refine ⟨by decide, by decide, by decide, by decide⟩

/-- C2 (amended): with backup disabled (and the external Maven steps off),
a successful dry run leaves every file's contents on disk unchanged, and a
non-dry-run invocation on the same initial state succeeds with the same
changed-file list, changed-property list, changed-JSON list and warning
list; when the descriptor steps report no change (empty changed-file
list) and the walk visits each path once, the whole reports coincide,
replacement list included.  (With backup enabled, `.bak` files are written
even under dry-run, and when a descriptor changes, the non-dry-run
traversal reads the rewritten descriptor, so the replacement lists can
differ — see the counterexample.) -/
theorem C2_amended_dry_run_no_backup (cfg : MigrationConfig) (root : Str) (bld : Bool)
    (fs : FS) (repD : Report) (fsD : FS)
    (hD : run_migration (Except.ok cfg) (MigrationOptions.mk root true false false bld) fs
        = RunResult.success repD fsD) :
    fsD = fs ∧
    ∃ repN fsN,
      run_migration (Except.ok cfg) (MigrationOptions.mk root false false false bld) fs
        = RunResult.success repN fsN
      ∧ repN.changedFiles = repD.changedFiles
      ∧ repN.changedProperties = repD.changedProperties
      ∧ repN.changedJson = repD.changedJson
      ∧ repN.errors = repD.errors
      ∧ ((fs.map Prod.fst).Nodup → repD.changedFiles = [] → repN = repD) := by
  by_cases hm : is_mule_project fs root = true
  case neg =>
    rw [Bool.not_eq_true] at hm
    simp [run_migration, hm] at hD
  case pos =>
  have hmm := hm
  simp only [is_mule_project, Bool.and_eq_true] at hmm
  have hpe : fsExists fs (pomPath root) = true := hmm.1
  have hae : fsExists fs (artifactPath root) = true := hmm.2
  cases hpl : fsLookup fs (pomPath root) with
  | none => simp [fsExists, hpl] at hpe
  | some d =>
    cases d with
    | binary =>
      have hps : pomStage cfg (MigrationOptions.mk root true false false bld) fs
          = Except.error ("Failed to read pom.xml").data := by
        simp [pomStage, fsExists, hpl, update_pom_xml_summary]
      simp [run_migration, hm, hps] at hD
    | text xml =>
      have hpsD := pomStage_text_nobak cfg (MigrationOptions.mk root true false false bld)
        fs xml rfl hpl
      simp only [] at hpsD
      cases hal : fsLookup fs (artifactPath root) with
      | none => simp [fsExists, hal] at hae
      | some d2 =>
        cases d2 with
        | binary =>
          have hart : artifactStage cfg (MigrationOptions.mk root true false false bld) fs
              = Except.error ("Failed to read mule-artifact.json").data := by
            simp [artifactStage, fsExists, hal, update_mule_artifact_json_summary]
          simp [run_migration, hm, hpsD, hart] at hD
        | text a =>
          cases hpj : parseJson a with
          | none =>
            have hart : artifactStage cfg (MigrationOptions.mk root true false false bld) fs
                = Except.error ("Invalid JSON").data := by
              simp [artifactStage, fsExists, hal, update_mule_artifact_json_summary, hpj]
            simp [run_migration, hm, hpsD, hart] at hD
          | some j =>
            have hpsD : pomStage cfg (MigrationOptions.mk root true false false bld) fs
                = Except.ok (fs,
                    (if (updatePomContent cfg.app_runtime_version
                        cfg.mule_maven_plugin_version cfg.munit_version xml).2.2 = true then
                      [pomPath root] else []),
                    (if (updatePomContent cfg.app_runtime_version
                        cfg.mule_maven_plugin_version cfg.munit_version xml).2.2 = true then
                      (updatePomContent cfg.app_runtime_version
                        cfg.mule_maven_plugin_version cfg.munit_version xml).2.1 else []),
                    []) := by
              rw [pomStage_text_nobak cfg _ fs xml rfl hpl]
              simp
            have hartD : artifactStage cfg (MigrationOptions.mk root true false false bld) fs
                = Except.ok (fs,
                    (if (updateArtifactContent j cfg.min_mule_version
                        cfg.java_specification_versions).2.2 = true then
                      [artifactPath root] else []),
                    (if (updateArtifactContent j cfg.min_mule_version
                        cfg.java_specification_versions).2.2 = true then
                      (updateArtifactContent j cfg.min_mule_version
                        cfg.java_specification_versions).2.1 else []),
                    []) := by
              rw [artifactStage_text_nobak cfg _ fs a j rfl hal hpj]
              simp
            simp only [run_migration, hm, if_true, Bool.false_eq_true, if_false,
              hpsD, hartD, traverse_and_replace_summary, traverseGo_dry_nobak_fs,
              RunResult.success.injEq] at hD
            obtain ⟨hrep, hfs⟩ := hD
            subst hrep
            subst hfs
            refine ⟨rfl, ?_⟩
            have hlookupN : fsLookup
                (if (updatePomContent cfg.app_runtime_version
                    cfg.mule_maven_plugin_version cfg.munit_version xml).2.2 = true then
                  fsWrite fs (pomPath root)
                    (FileData.text (updatePomContent cfg.app_runtime_version
                      cfg.mule_maven_plugin_version cfg.munit_version xml).1)
                else fs) (artifactPath root) = some (FileData.text a) := by
              by_cases hch : (updatePomContent cfg.app_runtime_version
                  cfg.mule_maven_plugin_version cfg.munit_version xml).2.2 = true
              · rw [if_pos hch]
                rw [fsLookup_fsWrite_ne fs (pomPath root) (artifactPath root) _
                  (artifactPath_ne_pomPath root)]
                exact hal
              · rw [if_neg hch]
                exact hal
            have hpsN : pomStage cfg (MigrationOptions.mk root false false false bld) fs
                = Except.ok (
                    (if (updatePomContent cfg.app_runtime_version
                        cfg.mule_maven_plugin_version cfg.munit_version xml).2.2 = true then
                      fsWrite fs (pomPath root)
                        (FileData.text (updatePomContent cfg.app_runtime_version
                          cfg.mule_maven_plugin_version cfg.munit_version xml).1)
                    else fs),
                    (if (updatePomContent cfg.app_runtime_version
                        cfg.mule_maven_plugin_version cfg.munit_version xml).2.2 = true then
                      [pomPath root] else []),
                    (if (updatePomContent cfg.app_runtime_version
                        cfg.mule_maven_plugin_version cfg.munit_version xml).2.2 = true then
                      (updatePomContent cfg.app_runtime_version
                        cfg.mule_maven_plugin_version cfg.munit_version xml).2.1 else []),
                    []) := by
              rw [pomStage_text_nobak cfg _ fs xml rfl hpl]
              simp
            have hartN : artifactStage cfg (MigrationOptions.mk root false false false bld)
                (if (updatePomContent cfg.app_runtime_version
                    cfg.mule_maven_plugin_version cfg.munit_version xml).2.2 = true then
                  fsWrite fs (pomPath root)
                    (FileData.text (updatePomContent cfg.app_runtime_version
                      cfg.mule_maven_plugin_version cfg.munit_version xml).1)
                else fs)
                = Except.ok (
                    (if (updateArtifactContent j cfg.min_mule_version
                        cfg.java_specification_versions).2.2 = true then
                      fsWrite (if (updatePomContent cfg.app_runtime_version
                          cfg.mule_maven_plugin_version cfg.munit_version xml).2.2 = true then
                        fsWrite fs (pomPath root)
                          (FileData.text (updatePomContent cfg.app_runtime_version
                            cfg.mule_maven_plugin_version cfg.munit_version xml).1)
                      else fs) (artifactPath root)
                        (FileData.text (prettyJson (updateArtifactContent j
                          cfg.min_mule_version cfg.java_specification_versions).1))
                    else (if (updatePomContent cfg.app_runtime_version
                        cfg.mule_maven_plugin_version cfg.munit_version xml).2.2 = true then
                      fsWrite fs (pomPath root)
                        (FileData.text (updatePomContent cfg.app_runtime_version
                          cfg.mule_maven_plugin_version cfg.munit_version xml).1)
                    else fs)),
                    (if (updateArtifactContent j cfg.min_mule_version
                        cfg.java_specification_versions).2.2 = true then
                      [artifactPath root] else []),
                    (if (updateArtifactContent j cfg.min_mule_version
                        cfg.java_specification_versions).2.2 = true then
                      (updateArtifactContent j cfg.min_mule_version
                        cfg.java_specification_versions).2.1 else []),
                    []) := by
              rw [artifactStage_text_nobak cfg _ _ a j rfl hlookupN hpj]
              simp
            have hrunN : run_migration (Except.ok cfg)
                (MigrationOptions.mk root false false false bld) fs
                = RunResult.success (Report.mk
                    ((if (updatePomContent cfg.app_runtime_version
                          cfg.mule_maven_plugin_version cfg.munit_version xml).2.2 = true then
                        [pomPath root] else []) ++
                     (if (updateArtifactContent j cfg.min_mule_version
                          cfg.java_specification_versions).2.2 = true then
                        [artifactPath root] else []))
                    (if (updatePomContent cfg.app_runtime_version
                        cfg.mule_maven_plugin_version cfg.munit_version xml).2.2 = true then
                      (updatePomContent cfg.app_runtime_version
                        cfg.mule_maven_plugin_version cfg.munit_version xml).2.1 else [])
                    (if (updateArtifactContent j cfg.min_mule_version
                        cfg.java_specification_versions).2.2 = true then
                      (updateArtifactContent j cfg.min_mule_version
                        cfg.java_specification_versions).2.1 else [])
                    (traverseGo cfg.replacements false false
                      ((if (updateArtifactContent j cfg.min_mule_version
                          cfg.java_specification_versions).2.2 = true then
                        fsWrite (if (updatePomContent cfg.app_runtime_version
                            cfg.mule_maven_plugin_version cfg.munit_version xml).2.2 = true then
                          fsWrite fs (pomPath root)
                            (FileData.text (updatePomContent cfg.app_runtime_version
                              cfg.mule_maven_plugin_version cfg.munit_version xml).1)
                        else fs) (artifactPath root)
                          (FileData.text (prettyJson (updateArtifactContent j
                            cfg.min_mule_version cfg.java_specification_versions).1))
                      else (if (updatePomContent cfg.app_runtime_version
                          cfg.mule_maven_plugin_version cfg.munit_version xml).2.2 = true then
                        fsWrite fs (pomPath root)
                          (FileData.text (updatePomContent cfg.app_runtime_version
                            cfg.mule_maven_plugin_version cfg.munit_version xml).1)
                      else fs)).map Prod.fst)
                      (if (updateArtifactContent j cfg.min_mule_version
                          cfg.java_specification_versions).2.2 = true then
                        fsWrite (if (updatePomContent cfg.app_runtime_version
                            cfg.mule_maven_plugin_version cfg.munit_version xml).2.2 = true then
                          fsWrite fs (pomPath root)
                            (FileData.text (updatePomContent cfg.app_runtime_version
                              cfg.mule_maven_plugin_version cfg.munit_version xml).1)
                        else fs) (artifactPath root)
                          (FileData.text (prettyJson (updateArtifactContent j
                            cfg.min_mule_version cfg.java_specification_versions).1))
                      else (if (updatePomContent cfg.app_runtime_version
                          cfg.mule_maven_plugin_version cfg.munit_version xml).2.2 = true then
                        fsWrite fs (pomPath root)
                          (FileData.text (updatePomContent cfg.app_runtime_version
                            cfg.mule_maven_plugin_version cfg.munit_version xml).1)
                      else fs))).2
                    ([] ++ []))
                    (traverseGo cfg.replacements false false
                      ((if (updateArtifactContent j cfg.min_mule_version
                          cfg.java_specification_versions).2.2 = true then
                        fsWrite (if (updatePomContent cfg.app_runtime_version
                            cfg.mule_maven_plugin_version cfg.munit_version xml).2.2 = true then
                          fsWrite fs (pomPath root)
                            (FileData.text (updatePomContent cfg.app_runtime_version
                              cfg.mule_maven_plugin_version cfg.munit_version xml).1)
                        else fs) (artifactPath root)
                          (FileData.text (prettyJson (updateArtifactContent j
                            cfg.min_mule_version cfg.java_specification_versions).1))
                      else (if (updatePomContent cfg.app_runtime_version
                          cfg.mule_maven_plugin_version cfg.munit_version xml).2.2 = true then
                        fsWrite fs (pomPath root)
                          (FileData.text (updatePomContent cfg.app_runtime_version
                            cfg.mule_maven_plugin_version cfg.munit_version xml).1)
                      else fs)).map Prod.fst)
                      (if (updateArtifactContent j cfg.min_mule_version
                          cfg.java_specification_versions).2.2 = true then
                        fsWrite (if (updatePomContent cfg.app_runtime_version
                            cfg.mule_maven_plugin_version cfg.munit_version xml).2.2 = true then
                          fsWrite fs (pomPath root)
                            (FileData.text (updatePomContent cfg.app_runtime_version
                              cfg.mule_maven_plugin_version cfg.munit_version xml).1)
                        else fs) (artifactPath root)
                          (FileData.text (prettyJson (updateArtifactContent j
                            cfg.min_mule_version cfg.java_specification_versions).1))
                      else (if (updatePomContent cfg.app_runtime_version
                          cfg.mule_maven_plugin_version cfg.munit_version xml).2.2 = true then
                        fsWrite fs (pomPath root)
                          (FileData.text (updatePomContent cfg.app_runtime_version
                            cfg.mule_maven_plugin_version cfg.munit_version xml).1)
                      else fs))).1 := by
              simp only [run_migration, hm, if_true, Bool.false_eq_true, if_false,
                hpsN, hartN, traverse_and_replace_summary]
            refine ⟨_, _, hrunN, rfl, rfl, rfl, rfl, ?_⟩
            intro hnd hcf
            have hcf2 : ((if (updatePomContent cfg.app_runtime_version
                  cfg.mule_maven_plugin_version cfg.munit_version xml).2.2 = true then
                [pomPath root] else []) ++
               (if (updateArtifactContent j cfg.min_mule_version
                  cfg.java_specification_versions).2.2 = true then
                [artifactPath root] else [])) = [] := hcf
            by_cases hP : (updatePomContent cfg.app_runtime_version
                cfg.mule_maven_plugin_version cfg.munit_version xml).2.2 = true
            · rw [if_pos hP] at hcf2
              simp at hcf2
            · rw [Bool.not_eq_true] at hP
              by_cases hA : (updateArtifactContent j cfg.min_mule_version
                  cfg.java_specification_versions).2.2 = true
              · rw [if_pos hA] at hcf2
                simp at hcf2
              · rw [Bool.not_eq_true] at hA
                have htr : (traverseGo cfg.replacements false false (fs.map Prod.fst) fs).2
                    = (traverseGo cfg.replacements true false (fs.map Prod.fst) fs).2 :=
                  traverseGo_summary_eq cfg.replacements false false true false
                    (fs.map Prod.fst) fs fs hnd (fun p _ _ => rfl)
                simp only [hP, hA, Bool.false_eq_true, if_false, htr]

/-- Witness for C2 at a concrete up-to-date project. -/
theorem C2_witness :
    [(pomPath ("r").data, FileData.text ("<mule.version>2</mule.version>").data),
     (artifactPath ("r").data, FileData.text [lbrace, rbrace])]
      = [(pomPath ("r").data, FileData.text ("<mule.version>2</mule.version>").data),
         (artifactPath ("r").data, FileData.text [lbrace, rbrace])]
    ∧ ∃ repN fsN,
        run_migration
          (Except.ok (MigrationConfig.mk ("2").data ("p").data ("m").data ("x").data []
            [(("9").data, ("8").data)]))
          (MigrationOptions.mk ("r").data false false false false)
          [(pomPath ("r").data, FileData.text ("<mule.version>2</mule.version>").data),
           (artifactPath ("r").data, FileData.text [lbrace, rbrace])]
          = RunResult.success repN fsN
        ∧ repN.changedFiles = (Report.mk [] [] [] [] []).changedFiles
        ∧ repN.changedProperties = (Report.mk [] [] [] [] []).changedProperties
        ∧ repN.changedJson = (Report.mk [] [] [] [] []).changedJson
        ∧ repN.errors = (Report.mk [] [] [] [] []).errors
        ∧ (([(pomPath ("r").data,
              FileData.text ("<mule.version>2</mule.version>").data),
             (artifactPath ("r").data,
              FileData.text [lbrace, rbrace])].map Prod.fst).Nodup →
           (Report.mk ([] : List Str) [] [] [] []).changedFiles = [] →
           repN = Report.mk ([] : List Str) [] [] [] []) :=
  C2_amended_dry_run_no_backup
    (MigrationConfig.mk ("2").data ("p").data ("m").data ("x").data []
      [(("9").data, ("8").data)])
    ("r").data false
    [(pomPath ("r").data, FileData.text ("<mule.version>2</mule.version>").data),
     (artifactPath ("r").data, FileData.text [lbrace, rbrace])]
    (Report.mk [] [] [] [] [])
    [(pomPath ("r").data, FileData.text ("<mule.version>2</mule.version>").data),
     (artifactPath ("r").data, FileData.text [lbrace, rbrace])]
    (by decide)

/-- C3 (counterexample): the rule `'a' -> 'aa'` reintroduces its own
`from`: the first run rewrites `a` to `aa`, and the second run on the
resulting state rewrites again (`aaaa`), reporting a nonempty replacement
list and changing bytes — the pipeline is not idempotent for every
configuration. -/
theorem C3_counterexample :
    run_migration
        (Except.ok (MigrationConfig.mk ("2").data ("p").data ("m").data ("x").data []
          [(("a").data, ("aa").data)]))
        (MigrationOptions.mk ("r").data false false false false)
        [(pomPath ("r").data, FileData.text ("<mule.version>2</mule.version>").data),
         (artifactPath ("r").data, FileData.text [lbrace, rbrace]),
         (("r/f.txt").data, FileData.text ("a").data)]
      = RunResult.success
          (Report.mk [] [] [] [mkRepDesc ("r/f.txt").data ("a").data ("aa").data] [])
          [(pomPath ("r").data, FileData.text ("<mule.version>2</mule.version>").data),
           (artifactPath ("r").data, FileData.text [lbrace, rbrace]),
           (("r/f.txt").data, FileData.text ("aa").data)]
    ∧ run_migration
        (Except.ok (MigrationConfig.mk ("2").data ("p").data ("m").data ("x").data []
          [(("a").data, ("aa").data)]))
        (MigrationOptions.mk ("r").data false false false false)
        [(pomPath ("r").data, FileData.text ("<mule.version>2</mule.version>").data),
         (artifactPath ("r").data, FileData.text [lbrace, rbrace]),
         (("r/f.txt").data, FileData.text ("aa").data)]
      = RunResult.success
          (Report.mk [] [] [] [mkRepDesc ("r/f.txt").data ("a").data ("aa").data] [])
          [(pomPath ("r").data, FileData.text ("<mule.version>2</mule.version>").data),
           (artifactPath ("r").data, FileData.text [lbrace, rbrace]),
           (("r/f.txt").data, FileData.text ("aaaa").data)]
    ∧ [mkRepDesc ("r/f.txt").data ("a").data ("aa").data] ≠ ([] : List Str)
    ∧ FileData.text ("aaaa").data ≠ FileData.text ("aa").data := by
  refine ⟨by decide, by decide, by decide, by decide⟩

theorem traverseGo_no_occ (rules : List (Str × Str)) (dryRun backup : Bool) :
    ∀ (paths : List Str) (fs : FS),
      (∀ p ∈ paths, ∀ c, fsLookup fs p = some (FileData.text c) →
        extOf p ∈ allowedExts → ∀ r ∈ rules, occurs r.1 c = false) →
      traverseGo rules dryRun backup paths fs = (fs, []) := by
  intro paths
  induction paths with
  | nil => intro fs _; rfl
  | cons p ps ih =>
    intro fs h
    have hhead : processFile rules dryRun backup p fs = (fs, []) := by
      by_cases he : extOf p ∈ allowedExts
      · cases hl : fsLookup fs p with
        | none => simp only [processFile, if_pos he, hl]
        | some d =>
          cases d with
          | binary => exact processFile_binary rules dryRun backup p fs hl
          | text c =>
            have hocc := h p (List.mem_cons_self _ _) c hl he
            have happ := applyRules_no_occ p rules c hocc
            exact processFile_not_changed rules dryRun backup p fs c hl (by rw [happ])
      · simp only [processFile, if_neg he]
    simp only [traverseGo, hhead]
    rw [ih fs (fun q hq => h q (List.mem_cons_of_mem _ hq))]
    simp

/-- C3 (amended): the second run is a no-op provided the state left by the
first run is detection-stable: the pom pass detects no change on the
written pom, the artifact pass detects no change on the written artifact,
and no replacement rule's `from` occurs in any traversed file.  Then the
second run succeeds with every change list empty and every file
byte-identical to after the first run.  (A configuration whose rules
reintroduce matched text — e.g. `from = a`, `to = aa` — violates the
stability condition and the pipeline is then not idempotent, as the
counterexample shows.) -/
theorem C3_amended_idempotent_when_stable
    (cfg : MigrationConfig) (opts : MigrationOptions) (fs0 fs1 : FS) (rep1 : Report)
    (p1 a1 : Str) (j1 : JValue)
    (hrun1 : run_migration (Except.ok cfg) opts fs0 = RunResult.success rep1 fs1)
    (hmav : opts.update_maven_deps = false)
    (hp : fsLookup fs1 (pomPath opts.project_root) = some (FileData.text p1))
    (hpch : (updatePomContent cfg.app_runtime_version cfg.mule_maven_plugin_version
        cfg.munit_version p1).2.2 = false)
    (ha : fsLookup fs1 (artifactPath opts.project_root) = some (FileData.text a1))
    (hap : parseJson a1 = some j1)
    (hach : (updateArtifactContent j1 cfg.min_mule_version
        cfg.java_specification_versions).2.2 = false)
    (hrep : ∀ p d, (p, d) ∈ fs1 → extOf p ∈ allowedExts →
        ∀ c, d = FileData.text c → ∀ r ∈ cfg.replacements, occurs r.1 c = false) :
    run_migration (Except.ok cfg) opts fs1
      = RunResult.success (Report.mk [] [] [] [] []) fs1 := by
  have hproj : is_mule_project fs1 opts.project_root = true := by
    simp [is_mule_project, fsExists, hp, ha]
  have hps : pomStage cfg opts fs1 = Except.ok (fs1, [], [], []) := by
    simp [pomStage, fsExists, hp, update_pom_xml_summary, hpch]
  have hart : artifactStage cfg opts fs1 = Except.ok (fs1, [], [], []) := by
    simp [artifactStage, fsExists, ha, update_mule_artifact_json_summary, hap, hach]
  have htr : traverseGo cfg.replacements opts.dry_run opts.backup
      (fs1.map Prod.fst) fs1 = (fs1, []) := by
    apply traverseGo_no_occ
    intro p hpmem c hl he r hr
    exact hrep p (FileData.text c) (fsLookup_mem fs1 p _ hl) he c rfl r hr
  simp only [run_migration, hproj, if_true, hmav, Bool.false_eq_true, if_false,
    hps, hart, traverse_and_replace_summary, htr]
  simp

/-- Witness for C3: a concrete first run (version bump `1 -> 2`) whose
resulting state is detection-stable, so the second run reports nothing and
leaves every byte in place. -/
theorem C3_witness :
    run_migration
        (Except.ok (MigrationConfig.mk ("2").data ("p").data ("m").data ("x").data []
          [(("1").data, ("2").data)]))
        (MigrationOptions.mk ("r").data false false false false)
        [(pomPath ("r").data, FileData.text ("<mule.version>2</mule.version>").data),
         (artifactPath ("r").data, FileData.text [lbrace, rbrace])]
      = RunResult.success (Report.mk [] [] [] [] [])
          [(pomPath ("r").data, FileData.text ("<mule.version>2</mule.version>").data),
           (artifactPath ("r").data, FileData.text [lbrace, rbrace])] := by
  apply C3_amended_idempotent_when_stable
    (MigrationConfig.mk ("2").data ("p").data ("m").data ("x").data []
      [(("1").data, ("2").data)])
    (MigrationOptions.mk ("r").data false false false false)
    [(pomPath ("r").data, FileData.text ("<mule.version>1</mule.version>").data),
     (artifactPath ("r").data, FileData.text [lbrace, rbrace])]
    [(pomPath ("r").data, FileData.text ("<mule.version>2</mule.version>").data),
     (artifactPath ("r").data, FileData.text [lbrace, rbrace])]
    (Report.mk [pomPath ("r").data]
      [mkPropDesc ("mule.version").data ("1").data ("2").data] [] [] [])
    ("<mule.version>2</mule.version>").data [lbrace, rbrace] (JValue.jobj [])
  · decide
  · decide
  · decide
  · decide
  · decide
  · rfl
  · decide
  · intro p d hmem hext c hc r hr
    simp only [List.mem_cons, List.not_mem_nil, or_false] at hmem
    simp only [List.mem_singleton] at hr
    subst hr
    rcases hmem with h1 | h1
    · rw [Prod.mk.injEq] at h1
      obtain ⟨he1, he2⟩ := h1
      subst he1
      subst he2
      injection hc with h3
      subst h3
      decide
    · rw [Prod.mk.injEq] at h1
      obtain ⟨he1, he2⟩ := h1
      subst he1
      subst he2
      injection hc with h3
      subst h3
      decide
